import Mathlib

/-!
Shallow embedding of the n8n management dashboard's core module
(`src/dashboard/docker_manager.py`, class `N8NManager`) and proofs about it.

Modelling conventions:
* Python strings are Lean `String`s; all character-level work is done on
  `String.data` (`List Char`) so that definitions reduce in the kernel.
* Python `dict`s are association lists with insertion-order-preserving
  upsert, matching CPython dict semantics.
* Python exceptions are modelled with `Except`; the error type `DErr`
  records the kind of the underlying exception, and the source's
  `raise Exception(f"{ctx}: {str(e)}")` re-wraps become `DErr.wrapped`.
* The Docker engine is modelled as an explicit state (`Engine`); engine
  calls that the source treats as infallible reads are total functions of
  that state, `images.pull` fails exactly when the tag is not in the
  modelled registry, and floats (CPU/memory percentages) are modelled as
  exact rationals.
-/

/-! ## Python-style string helpers (on `List Char`) -/

/-- ASCII lowercase of one character, as Python `str.lower` acts on ASCII. -/
def lowerChar (c : Char) : Char :=
  if 'A' ≤ c ∧ c ≤ 'Z' then Char.ofNat (c.toNat + 32) else c

/-- Python `s.lower()` (ASCII range; the tags and warnings involved are ASCII). -/
def lowerStr (s : String) : String := ⟨s.data.map lowerChar⟩

/-- Does `pat` occur as a prefix of `l`? -/
def strStarts : List Char → List Char → Bool
  | [], _ => true
  | _ :: _, [] => false
  | p :: ps, c :: cs => p = c && strStarts ps cs

/-- Python `needle in hay` for strings: substring containment. -/
def hasSub (hay needle : List Char) : Bool :=
  if strStarts needle hay then true
  else
    match hay with
    | [] => false
    | _ :: t => hasSub t needle

/-- Substring containment on `String`s (Python `needle in hay`). -/
def strHasSub (hay needle : String) : Bool := hasSub hay.data needle.data

/-- Python `hay.endswith(pat)`. -/
def strEnds (hay pat : String) : Bool := strStarts pat.data.reverse hay.data.reverse

/-- Python `s.split(sep)` for a one-character separator: `"".split(":") = [""]`. -/
def splitOnC (sep : Char) : List Char → List (List Char)
  | [] => [[]]
  | c :: t =>
    let r := splitOnC sep t
    if c = sep then [] :: r
    else
      match r with
      | h :: t' => (c :: h) :: t'
      | [] => [[c]]

def isDigitC (c : Char) : Bool := '0' ≤ c && c ≤ '9'

def isAlnumHyC (c : Char) : Bool :=
  isDigitC c || ('a' ≤ c && c ≤ 'z') || ('A' ≤ c && c ≤ 'Z') || c = '-'

/-- Python `s.isdigit()` restricted to ASCII: nonempty and all digits. -/
def pyIsdigit (l : List Char) : Bool := !l.isEmpty && l.all isDigitC

def digitsToNat (l : List Char) : Nat :=
  l.foldl (fun acc c => acc * 10 + (c.toNat - '0'.toNat)) 0

/-- Python `int(s)` on a plain decimal literal with optional sign
(the inputs this code feeds to `int` carry no whitespace or underscores);
`none` models the `ValueError`. -/
def pyInt (l : List Char) : Option Int :=
  match l with
  | '-' :: rest => if pyIsdigit rest then some (-(digitsToNat rest : Int)) else none
  | '+' :: rest => if pyIsdigit rest then some ((digitsToNat rest : Int)) else none
  | _ => if pyIsdigit l then some ((digitsToNat l : Int)) else none

/-- Python truthiness of an optional string (`None` and `""` are falsy). -/
def pyT : Option String → Bool
  | none => false
  | some s => !s.data.isEmpty

/-- Python `a or b` on optional strings, returning `b` when `a` is falsy. -/
def pyOr (a b : Option String) : Option String := if pyT a then a else b

/-- Render a natural number in decimal (for embedded f-strings). -/
def natToStr (n : Nat) : String :=
  ⟨(Nat.toDigits 10 n)⟩

/-- Render a Python int in decimal (for embedded f-strings). -/
def intToStr (i : Int) : String :=
  if i < 0 then "-" ++ natToStr i.natAbs else natToStr i.natAbs

/-! ## Semantic versions (the `semver` library's strict `Version.parse`) -/

/-- A parsed semantic version: `major.minor.patch[-prerelease][+build]`,
prerelease and build held as their dot-separated identifier lists. -/
structure Semver where
  major : Nat
  minor : Nat
  patch : Nat
  pre : List String
  buildIds : List String
deriving DecidableEq, Repr

/-- Parse a numeric version component: digits only, no leading zero unless `"0"`. -/
def parseNumComp (l : List Char) : Option Nat :=
  if pyIsdigit l then
    if l.head? = some '0' ∧ l.length ≠ 1 then none
    else some (digitsToNat l)
  else none

/-- Valid prerelease identifier: nonempty alphanumeric/hyphen, and if purely
numeric it must have no leading zero. -/
def validPreId (l : List Char) : Bool :=
  !l.isEmpty && l.all isAlnumHyC &&
    !(pyIsdigit l && l.head? = some '0' && l.length ≠ 1)

/-- Valid build identifier: nonempty alphanumeric/hyphen. -/
def validBuildId (l : List Char) : Bool := !l.isEmpty && l.all isAlnumHyC

/-- Parse the part before `+`: `major.minor.patch` with optional `-prerelease`. -/
def parseCore (core : List Char) (bids : List String) : Option Semver :=
  let nums := core.takeWhile (· ≠ '-')
  let rest := core.dropWhile (· ≠ '-')
  let preIds : Option (List String) :=
    match rest with
    | [] => some []
    | _ :: preChars =>
      let ids := splitOnC '.' preChars
      if ids.all validPreId then some (ids.map (⟨·⟩)) else none
  match splitOnC '.' nums with
  | [mj, mi, pa] =>
    match parseNumComp mj, parseNumComp mi, parseNumComp pa, preIds with
    | some M, some m, some p, some pres => some ⟨M, m, p, pres, bids⟩
    | _, _, _, _ => none
  | _ => none

/-- `semver.Version.parse` (strict form: all of major/minor/patch required);
`none` models the `ValueError`. -/
def semverParse (s : String) : Option Semver :=
  match splitOnC '+' s.data with
  | [core] => parseCore core []
  | [core, b] =>
    let ids := splitOnC '.' b
    if ids.all validBuildId then parseCore core (ids.map (⟨·⟩)) else none
  | _ => none

/-! ### Semver precedence comparison (build metadata ignored) -/

def natCmp (a b : Nat) : Ordering :=
  if a < b then .lt else if b < a then .gt else .eq

def chrCmp (a b : Char) : Ordering := natCmp a.toNat b.toNat

/-- Lexicographic comparison of character lists (Python `str` comparison). -/
def strCmpL : List Char → List Char → Ordering
  | [], [] => .eq
  | [], _ :: _ => .lt
  | _ :: _, [] => .gt
  | a :: as', b :: bs => (chrCmp a b).then (strCmpL as' bs)

/-- Compare two prerelease identifiers: numeric ones numerically and below
alphanumeric ones, alphanumeric ones as ASCII strings. -/
def idCmp (x y : String) : Ordering :=
  match pyIsdigit x.data, pyIsdigit y.data with
  | true, true => natCmp (digitsToNat x.data) (digitsToNat y.data)
  | true, false => .lt
  | false, true => .gt
  | false, false => strCmpL x.data y.data

/-- Lexicographic comparison of prerelease identifier lists. -/
def idsCmp : List String → List String → Ordering
  | [], [] => .eq
  | [], _ :: _ => .lt
  | _ :: _, [] => .gt
  | a :: as', b :: bs => (idCmp a b).then (idsCmp as' bs)

/-- Prerelease comparison: no prerelease ranks above any prerelease. -/
def preCmp (a b : List String) : Ordering :=
  match a, b with
  | [], [] => .eq
  | [], _ :: _ => .gt
  | _ :: _, [] => .lt
  | _, _ => idsCmp a b

/-- Precedence comparison of semantic versions (build metadata ignored),
as the `semver` library implements `<`/`>` on `Version`. -/
def svCmp (a b : Semver) : Ordering :=
  (natCmp a.major b.major).then
    ((natCmp a.minor b.minor).then
      ((natCmp a.patch b.patch).then (preCmp a.pre b.pre)))

/-- Lift of `svCmp` to parse results; `none` (unparseable, unreachable for
collected entries) is ranked below every parsed version to keep the
comparator total. -/
def svOptCmp (a b : Option Semver) : Ordering :=
  match a, b with
  | none, none => .eq
  | none, some _ => .lt
  | some _, none => .gt
  | some x, some y => svCmp x y

/-! ### Comparator laws -/

/-- The three comparator laws every ordering-valued comparison here satisfies. -/
structure LawfulCmp {α : Type _} (C : α → α → Ordering) : Prop where
  sym : ∀ a b, C b a = (C a b).swap
  lt_trans : ∀ {a b c}, C a b = .lt → C b c = .lt → C a c = .lt
  eq_left : ∀ {a b c}, C a b = .eq → C a c = C b c

theorem Ordering.then_swap (o p : Ordering) : (o.then p).swap = o.swap.then p.swap := by
  cases o <;> rfl

theorem Ordering.lt_then (p : Ordering) : Ordering.lt.then p = .lt := rfl

theorem Ordering.gt_then (p : Ordering) : Ordering.gt.then p = .gt := rfl

theorem Ordering.eq_then (p : Ordering) : Ordering.eq.then p = p := rfl

theorem natCmp_eq_lt {a b : Nat} : natCmp a b = .lt ↔ a < b := by
  unfold natCmp
  split
  · simp [*]
  · split <;> simp <;> omega

theorem natCmp_eq_eq {a b : Nat} : natCmp a b = .eq ↔ a = b := by
  unfold natCmp
  split
  · simp; omega
  · split <;> simp <;> omega

theorem natCmp_lawful : LawfulCmp natCmp := by
  refine ⟨?_, ?_, ?_⟩
  · intro a b
    unfold natCmp
    rcases Nat.lt_trichotomy a b with h | h | h
    · simp [h, Nat.not_lt.mpr (Nat.le_of_lt h), Ordering.swap]
    · simp [h, Ordering.swap]
    · simp [h, Nat.not_lt.mpr (Nat.le_of_lt h), Ordering.swap]
  · intro a b c hab hbc
    rw [natCmp_eq_lt] at *
    omega
  · intro a b c hab
    rw [natCmp_eq_eq] at hab
    subst hab
    rfl

/-- Lawfulness transfers along a projection. -/
theorem LawfulCmp.comap {α β : Type _} {C : β → β → Ordering} (h : LawfulCmp C)
    (f : α → β) : LawfulCmp (fun a b => C (f a) (f b)) := by
  refine ⟨fun a b => h.sym (f a) (f b), ?_, ?_⟩
  · intro a b c hab hbc
    exact h.lt_trans hab hbc
  · intro a b c hab
    exact h.eq_left hab

theorem LawfulCmp.eq_right {α : Type _} {C : α → α → Ordering} (h : LawfulCmp C)
    {a b c : α} (hab : C a b = .eq) : C c a = C c b := by
  have h1 : C b a = .eq := by rw [h.sym a b, hab]; rfl
  have h2 : C b c = C a c := h.eq_left h1
  rw [h.sym a c, h.sym b c, h2]

/-- Lexicographic composition of two lawful comparators on the same type. -/
theorem LawfulCmp.lex {α : Type _} {C D : α → α → Ordering}
    (hC : LawfulCmp C) (hD : LawfulCmp D) :
    LawfulCmp (fun a b => (C a b).then (D a b)) := by
  refine ⟨?_, ?_, ?_⟩
  · intro a b
    show (C b a).then (D b a) = ((C a b).then (D a b)).swap
    rw [hC.sym a b, hD.sym a b, Ordering.then_swap]
  · intro a b c hab hbc
    show (C a c).then (D a c) = .lt
    replace hab : (C a b).then (D a b) = .lt := hab
    replace hbc : (C b c).then (D b c) = .lt := hbc
    cases h1 : C a b with
    | lt =>
      cases h2 : C b c with
      | lt => rw [hC.lt_trans h1 h2, Ordering.lt_then]
      | eq =>
        have h3 : C a b = C a c := hC.eq_right h2
        rw [← h3, h1, Ordering.lt_then]
      | gt => rw [h2, Ordering.gt_then] at hbc; cases hbc
    | eq =>
      rw [h1, Ordering.eq_then] at hab
      cases h2 : C b c with
      | lt =>
        have h3 : C a c = C b c := hC.eq_left h1
        rw [h3, h2, Ordering.lt_then]
      | eq =>
        rw [h2, Ordering.eq_then] at hbc
        have h3 : C a c = C b c := hC.eq_left h1
        rw [h3, h2, Ordering.eq_then]
        exact hD.lt_trans hab hbc
      | gt => rw [h2, Ordering.gt_then] at hbc; cases hbc
    | gt => rw [h1, Ordering.gt_then] at hab; cases hab
  · intro a b c hab
    show (C a c).then (D a c) = (C b c).then (D b c)
    replace hab : (C a b).then (D a b) = .eq := hab
    cases h1 : C a b with
    | lt => rw [h1, Ordering.lt_then] at hab; cases hab
    | eq =>
      rw [h1, Ordering.eq_then] at hab
      rw [hC.eq_left h1, hD.eq_left hab]
    | gt => rw [h1, Ordering.gt_then] at hab; cases hab

theorem chrCmp_lawful : LawfulCmp chrCmp := natCmp_lawful.comap Char.toNat

/-- Generic list-lexicographic lifting of a lawful element comparator. -/
def listLexCmp {α : Type _} (C : α → α → Ordering) : List α → List α → Ordering
  | [], [] => .eq
  | [], _ :: _ => .lt
  | _ :: _, [] => .gt
  | a :: as', b :: bs => (C a b).then (listLexCmp C as' bs)

theorem listLexCmp_lawful {α : Type _} {C : α → α → Ordering} (h : LawfulCmp C) :
    LawfulCmp (listLexCmp C) := by
  refine ⟨?_, ?_, ?_⟩
  · intro a b
    induction a generalizing b with
    | nil => cases b <;> rfl
    | cons x xs ih =>
      cases b with
      | nil => rfl
      | cons y ys =>
        simp only [listLexCmp, Ordering.then_swap]
        rw [h.sym x y, ih ys]
  · intro a b c hab hbc
    induction a generalizing b c with
    | nil =>
      cases b with
      | nil => cases hab
      | cons y ys =>
        cases c with
        | nil => cases hbc
        | cons z zs => rfl
    | cons x xs ih =>
      cases b with
      | nil => cases hab
      | cons y ys =>
        cases c with
        | nil => cases hbc
        | cons z zs =>
          simp only [listLexCmp] at *
          cases h1 : C x y with
          | lt =>
            cases h2 : C y z with
            | lt => rw [h.lt_trans h1 h2, Ordering.lt_then]
            | eq =>
              have h3 : C x y = C x z := h.eq_right h2
              rw [← h3, h1, Ordering.lt_then]
            | gt => rw [h2, Ordering.gt_then] at hbc; cases hbc
          | eq =>
            rw [h1, Ordering.eq_then] at hab
            cases h2 : C y z with
            | lt =>
              have h3 : C x z = C y z := h.eq_left h1
              rw [h3, h2, Ordering.lt_then]
            | eq =>
              rw [h2, Ordering.eq_then] at hbc
              have h3 : C x z = C y z := h.eq_left h1
              rw [h3, h2, Ordering.eq_then]
              exact ih hab hbc
            | gt => rw [h2, Ordering.gt_then] at hbc; cases hbc
          | gt => rw [h1, Ordering.gt_then] at hab; cases hab
  · intro a b c hab
    induction a generalizing b c with
    | nil =>
      cases b with
      | nil => rfl
      | cons y ys => cases hab
    | cons x xs ih =>
      cases b with
      | nil => cases hab
      | cons y ys =>
        simp only [listLexCmp] at hab
        cases h1 : C x y with
        | lt => rw [h1, Ordering.lt_then] at hab; cases hab
        | eq =>
          rw [h1, Ordering.eq_then] at hab
          cases c with
          | nil => rfl
          | cons z zs =>
            simp only [listLexCmp]
            rw [h.eq_left h1, ih hab]
        | gt => rw [h1, Ordering.gt_then] at hab; cases hab

theorem strCmpL_eq_listLex : strCmpL = listLexCmp chrCmp := by
  funext a b
  induction a generalizing b with
  | nil => cases b <;> rfl
  | cons x xs ih =>
    cases b with
    | nil => rfl
    | cons y ys => show (chrCmp x y).then _ = _; rw [ih]; rfl

theorem strCmpL_lawful : LawfulCmp strCmpL := by
  rw [strCmpL_eq_listLex]; exact listLexCmp_lawful chrCmp_lawful

theorem idCmp_lawful : LawfulCmp idCmp := by
  refine ⟨?_, ?_, ?_⟩
  · intro a b
    cases ha : pyIsdigit a.data <;> cases hb : pyIsdigit b.data <;>
      simp only [idCmp, ha, hb] <;>
      first
        | rfl
        | exact strCmpL_lawful.sym a.data b.data
        | exact natCmp_lawful.sym _ _
  · intro a b c hab hbc
    cases ha : pyIsdigit a.data <;> cases hb : pyIsdigit b.data <;>
      cases hc : pyIsdigit c.data <;>
      simp only [idCmp, ha, hb, hc] at hab hbc ⊢ <;>
      first
        | rfl
        | exact absurd hab (by decide)
        | exact absurd hbc (by decide)
        | exact strCmpL_lawful.lt_trans hab hbc
        | exact natCmp_lawful.lt_trans hab hbc
  · intro a b c hab
    cases ha : pyIsdigit a.data <;> cases hb : pyIsdigit b.data <;>
      cases hc : pyIsdigit c.data <;>
      simp only [idCmp, ha, hb, hc] at hab ⊢ <;>
      first
        | rfl
        | exact absurd hab (by decide)
        | exact strCmpL_lawful.eq_left hab
        | exact natCmp_lawful.eq_left hab

theorem idsCmp_eq_listLex : idsCmp = listLexCmp idCmp := by
  funext a b
  induction a generalizing b with
  | nil => cases b <;> rfl
  | cons x xs ih =>
    cases b with
    | nil => rfl
    | cons y ys => show (idCmp x y).then _ = _; rw [ih]; rfl

theorem idsCmp_lawful : LawfulCmp idsCmp := by
  rw [idsCmp_eq_listLex]; exact listLexCmp_lawful idCmp_lawful

theorem preCmp_nil_nil : preCmp [] [] = .eq := rfl

theorem preCmp_nil_cons (y : String) (ys : List String) :
    preCmp [] (y :: ys) = .gt := rfl

theorem preCmp_cons_nil (x : String) (xs : List String) :
    preCmp (x :: xs) [] = .lt := rfl

theorem preCmp_cons_cons (x y : String) (xs ys : List String) :
    preCmp (x :: xs) (y :: ys) = idsCmp (x :: xs) (y :: ys) := rfl

theorem preCmp_lawful : LawfulCmp preCmp := by
  have hi := idsCmp_lawful
  refine ⟨?_, ?_, ?_⟩
  · intro a b
    cases a <;> cases b <;>
      simp only [preCmp_nil_nil, preCmp_nil_cons, preCmp_cons_nil, preCmp_cons_cons] <;>
      first
        | rfl
        | exact hi.sym _ _
  · intro a b c hab hbc
    cases a <;> cases b <;> cases c <;>
      simp only [preCmp_nil_nil, preCmp_nil_cons, preCmp_cons_nil, preCmp_cons_cons]
        at hab hbc ⊢ <;>
      first
        | rfl
        | exact Ordering.noConfusion hab
        | exact Ordering.noConfusion hbc
        | exact hi.lt_trans hab hbc
  · intro a b c hab
    cases a <;> cases b <;> cases c <;>
      simp only [preCmp_nil_nil, preCmp_nil_cons, preCmp_cons_nil, preCmp_cons_cons]
        at hab ⊢ <;>
      first
        | rfl
        | exact Ordering.noConfusion hab
        | exact hi.eq_left hab

theorem svCmp_lawful : LawfulCmp svCmp := by
  have h1 := natCmp_lawful.comap (fun v : Semver => v.major)
  have h2 := natCmp_lawful.comap (fun v : Semver => v.minor)
  have h3 := natCmp_lawful.comap (fun v : Semver => v.patch)
  have h4 := preCmp_lawful.comap (fun v : Semver => v.pre)
  exact h1.lex (h2.lex (h3.lex h4))

theorem svOptCmp_none_none : svOptCmp none none = .eq := rfl

theorem svOptCmp_none_some (v : Semver) : svOptCmp none (some v) = .lt := rfl

theorem svOptCmp_some_none (v : Semver) : svOptCmp (some v) none = .gt := rfl

theorem svOptCmp_some_some (a b : Semver) : svOptCmp (some a) (some b) = svCmp a b := rfl

theorem svOptCmp_lawful : LawfulCmp svOptCmp := by
  have h := svCmp_lawful
  refine ⟨?_, ?_, ?_⟩
  · intro a b
    cases a <;> cases b <;>
      simp only [svOptCmp_none_none, svOptCmp_none_some, svOptCmp_some_none,
        svOptCmp_some_some] <;>
      first
        | rfl
        | exact h.sym _ _
  · intro a b c hab hbc
    cases a <;> cases b <;> cases c <;>
      simp only [svOptCmp_none_none, svOptCmp_none_some, svOptCmp_some_none,
        svOptCmp_some_some] at hab hbc ⊢ <;>
      first
        | rfl
        | exact Ordering.noConfusion hab
        | exact Ordering.noConfusion hbc
        | exact h.lt_trans hab hbc
  · intro a b c hab
    cases a <;> cases b <;> cases c <;>
      simp only [svOptCmp_none_none, svOptCmp_none_some, svOptCmp_some_none,
        svOptCmp_some_some] at hab ⊢ <;>
      first
        | rfl
        | exact Ordering.noConfusion hab
        | exact h.eq_left hab

/-- Transitivity of the reflexive comparator order `C a b ≠ .lt`. -/
theorem LawfulCmp.ge_trans {α : Type _} {C : α → α → Ordering} (h : LawfulCmp C)
    {a b c : α} (hab : C a b ≠ .lt) (hbc : C b c ≠ .lt) : C a c ≠ .lt := by
  intro hac
  cases h1 : C a b with
  | lt => exact hab h1
  | eq => rw [h.eq_left h1] at hac; exact hbc hac
  | gt =>
    cases h2 : C b c with
    | lt => exact hbc h2
    | eq => rw [h.eq_right h2] at h1; rw [h1] at hac; cases hac
    | gt =>
      have hba : C b a = .lt := by
        have := h.sym a b; rw [h1] at this; exact this.symm ▸ rfl
      have hcb : C c b = .lt := by
        have := h.sym b c; rw [h2] at this; exact this.symm ▸ rfl
      have : C c a = .lt := h.lt_trans hcb hba
      have hs := h.sym c a
      rw [this] at hs
      rw [hac] at hs
      cases hs

theorem LawfulCmp.ge_total {α : Type _} {C : α → α → Ordering} (h : LawfulCmp C)
    (a b : α) : C a b ≠ .lt ∨ C b a ≠ .lt := by
  cases h1 : C a b with
  | lt =>
    right
    have hs := h.sym a b
    rw [h1] at hs
    simp [hs, Ordering.swap]
  | eq => left; simp [h1]
  | gt => left; simp [h1]

/-! ## Version catalog fetcher (`get_available_versions`) -/

/-- One tag object from a Docker Hub tag-listing page (`{name, last_updated}`). -/
structure TagInfo where
  name : String
  last_updated : String
deriving DecidableEq, Repr

/-- One entry of the fetcher's result (`{version, updated, is_latest}`). -/
structure VEntry where
  version : String
  updated : String
  is_latest : Bool
deriving DecidableEq, Repr

/-- The GitHub `releases/latest` payload fields the code reads. -/
structure GhRelease where
  tag_name : String
  prerelease : Bool
deriving DecidableEq, Repr

/-- Architecture suffixes rejected by the tag filter. -/
def archSuffixes : List String := ["-amd64", "-arm64"]

/-- Pre-release markers rejected by the tag filter (checked on the lowercased tag). -/
def preMarkers : List String :=
  ["-exp.", "-exp", ".exp", "-alpha", "-beta", "-rc", ".alpha", ".beta", ".rc"]

/-- The tag filter of the collection loop: skips `latest`/`next`, architecture
suffixes, textual pre-release markers, unparseable tags, and parsed versions
with a prerelease component. -/
def keepTag (t : String) : Bool :=
  !(t = "latest" || t = "next") &&
  !(archSuffixes.any (fun a => strHasSub t a)) &&
  !(preMarkers.any (fun p => strHasSub (lowerStr t) p)) &&
  (match semverParse t with
   | some v => v.pre.isEmpty
   | none => false)

/-- Inner `for tag in data["results"]` loop: append entries for kept tags,
breaking once `limit` entries are collected. -/
def procTags (limit : Nat) : List TagInfo → List VEntry → List VEntry
  | [], acc => acc
  | t :: ts, acc =>
    let acc' := if keepTag t.name then acc ++ [⟨t.name, t.last_updated, false⟩] else acc
    if limit ≤ acc'.length then acc' else procTags limit ts acc'

/-- Outer `while len(versions) < limit` pagination loop over the tag pages. -/
def procPages (limit : Nat) : List (List TagInfo) → List VEntry → List VEntry
  | [], acc => acc
  | p :: ps, acc =>
    if limit ≤ acc.length then acc
    else procPages limit ps (procTags limit p acc)

/-- Sort relation used by `versions.sort(key=semver..., reverse=True)`:
entry `a` may precede entry `b` when its parsed version is not smaller. -/
def entGe (a b : VEntry) : Prop :=
  svOptCmp (semverParse a.version) (semverParse b.version) ≠ .lt

instance : DecidableRel entGe := fun a b => by
  unfold entGe
  infer_instance

instance : IsTotal VEntry entGe :=
  ⟨fun a b =>
    (svOptCmp_lawful.comap (fun e : VEntry => semverParse e.version)).ge_total a b⟩

instance : IsTrans VEntry entGe :=
  ⟨fun _ _ _ hab hbc =>
    (svOptCmp_lawful.comap (fun e : VEntry => semverParse e.version)).ge_trans hab hbc⟩

/-- Mark the first entry whose version equals the GitHub latest tag. -/
def markLatest (v : String) : List VEntry → List VEntry
  | [] => []
  | e :: t => if e.version = v then { e with is_latest := true } :: t else e :: markLatest v t

/-- Strip the `n8n@` and `v` prefixes off the GitHub release tag and keep it
only for non-prerelease releases. -/
def stripRelTag (r : GhRelease) : Option String :=
  let t0 := r.tag_name
  let t1 := if strStarts "n8n@".data t0.data then (⟨t0.data.drop 4⟩ : String) else t0
  let t2 := if strStarts "v".data t1.data then (⟨t1.data.drop 1⟩ : String) else t1
  if !r.prerelease then some t2 else none

/-- `N8NManager.get_available_versions`.  `gh` is the GitHub `releases/latest`
response (`none` models a failed or non-200 best-effort lookup), `pages` the
successive Docker Hub tag pages (the `next` link exists exactly while pages
remain).  Python's stable `list.sort(reverse=True)` is modelled by the stable
`List.insertionSort` under the total preorder `entGe`. -/
def get_available_versions (gh : Option GhRelease) (pages : List (List TagInfo))
    (limit : Nat) : List VEntry :=
  let latest : Option String :=
    match gh with
    | none => none
    | some r => stripRelTag r
  let versions := procPages limit pages []
  let sorted := List.insertionSort entGe versions
  let marked := if pyT latest then markLatest (latest.getD "") sorted else sorted
  marked.take limit

/-! ### Catalog fetcher lemmas -/

theorem procTags_mem (limit : Nat) (ts : List TagInfo) :
    ∀ acc, ∀ e ∈ procTags limit ts acc, e ∈ acc ∨ keepTag e.version = true := by
  induction ts with
  | nil => intro acc e he; exact .inl he
  | cons t ts ih =>
    intro acc e he
    simp only [procTags] at he
    split at he
    · rename_i hk
      split at he
      · rcases List.mem_append.mp he with h | h
        · exact .inl h
        · right
          have := List.mem_singleton.mp h
          subst this
          exact hk
      · rcases ih _ e he with h | h
        · rcases List.mem_append.mp h with h1 | h1
          · exact .inl h1
          · right
            have := List.mem_singleton.mp h1
            subst this
            exact hk
        · exact .inr h
    · split at he
      · exact .inl he
      · exact ih _ e he

theorem procPages_mem (limit : Nat) (pages : List (List TagInfo)) :
    ∀ acc, ∀ e ∈ procPages limit pages acc, e ∈ acc ∨ keepTag e.version = true := by
  induction pages with
  | nil => intro acc e he; exact .inl he
  | cons p ps ih =>
    intro acc e he
    rw [procPages] at he
    split at he
    · exact .inl he
    · rcases ih _ e he with h | h
      · exact procTags_mem limit p acc e h
      · exact .inr h

theorem keepTag_parse {t : String} (h : keepTag t = true) :
    ∃ v, semverParse t = some v ∧ v.pre = [] := by
  unfold keepTag at h
  simp only [Bool.and_eq_true] at h
  obtain ⟨⟨⟨_, _⟩, _⟩, h4⟩ := h
  cases hp : semverParse t with
  | none => rw [hp] at h4; simp at h4
  | some v =>
    rw [hp] at h4
    exact ⟨v, rfl, by simpa [List.isEmpty_iff] using h4⟩

theorem keepTag_noFilters {t : String} (h : keepTag t = true) :
    (∀ a ∈ archSuffixes, strHasSub t a = false) ∧
    (∀ m ∈ preMarkers, strHasSub (lowerStr t) m = false) := by
  unfold keepTag at h
  simp only [Bool.and_eq_true, Bool.not_eq_true', List.any_eq_false] at h
  obtain ⟨⟨⟨_, h2⟩, h3⟩, _⟩ := h
  exact ⟨fun a ha => by simpa using h2 a ha, fun m hm => by simpa using h3 m hm⟩

theorem markLatest_map_version (v : String) (l : List VEntry) :
    (markLatest v l).map (·.version) = l.map (·.version) := by
  induction l with
  | nil => rfl
  | cons e t ih =>
    rw [markLatest]
    split
    · simp
    · simp [ih]

/-- Every output entry's version string passed the tag filter. -/
theorem mem_get_available_versions {gh : Option GhRelease} {pages : List (List TagInfo)}
    {limit : Nat} {e : VEntry} (he : e ∈ get_available_versions gh pages limit) :
    keepTag e.version = true := by
  simp only [get_available_versions] at he
  have h1 := List.take_subset _ _ he
  have h2 : e.version ∈ (List.insertionSort entGe (procPages limit pages [])).map (·.version) := by
    split at h1
    · have h3 := List.mem_map_of_mem (fun x : VEntry => x.version) h1
      rwa [markLatest_map_version] at h3
    · exact List.mem_map_of_mem (fun x : VEntry => x.version) h1
  have hp := (List.perm_insertionSort entGe (procPages limit pages [])).map
    (fun x : VEntry => x.version)
  have h3 := hp.mem_iff.mp h2
  obtain ⟨e', he', hv⟩ := List.mem_map.mp h3
  rcases procPages_mem limit pages [] e' he' with h | h
  · cases h
  · rw [← hv]; exact h

/-- The fetcher output is sorted (non-strictly descending) under `entGe`. -/
theorem pairwise_get_available_versions (gh : Option GhRelease)
    (pages : List (List TagInfo)) (limit : Nat) :
    (get_available_versions gh pages limit).Pairwise entGe := by
  unfold get_available_versions
  have hs : (List.insertionSort entGe (procPages limit pages [])).Pairwise entGe :=
    List.sorted_insertionSort entGe _
  have hR : ∀ l : List VEntry, l.Pairwise entGe ↔
      (l.map (·.version)).Pairwise
        (fun x y => svOptCmp (semverParse x) (semverParse y) ≠ .lt) := by
    intro l
    rw [List.pairwise_map]
    exact Iff.rfl
  apply List.Pairwise.sublist (List.take_sublist _ _)
  split
  · rw [hR, markLatest_map_version, ← hR]
    exact hs
  · exact hs

theorem procTags_sublist (limit : Nat) (ts : List TagInfo) :
    ∀ acc, ∃ l, (procTags limit ts acc).map (·.version) = acc.map (·.version) ++ l
      ∧ l.Sublist (ts.map TagInfo.name) := by
  induction ts with
  | nil => intro acc; exact ⟨[], by simp [procTags], List.nil_sublist _⟩
  | cons t ts ih =>
    intro acc
    simp only [procTags]
    split
    · rename_i hk
      split
      · refine ⟨[t.name], by simp, ?_⟩
        simp
      · obtain ⟨l, hl, hsub⟩ := ih (acc ++ [⟨t.name, t.last_updated, false⟩])
        refine ⟨t.name :: l, ?_, ?_⟩
        · rw [hl]; simp
        · simpa using hsub.cons₂ t.name
    · split
      · exact ⟨[], by simp, List.nil_sublist _⟩
      · obtain ⟨l, hl, hsub⟩ := ih acc
        exact ⟨l, hl, hsub.cons t.name⟩

theorem procPages_sublist (limit : Nat) (pages : List (List TagInfo)) :
    ∀ acc, ∃ l, (procPages limit pages acc).map (·.version) = acc.map (·.version) ++ l
      ∧ l.Sublist ((pages.map (fun p => p.map TagInfo.name)).flatten) := by
  induction pages with
  | nil => intro acc; exact ⟨[], by simp [procPages], List.nil_sublist _⟩
  | cons p ps ih =>
    intro acc
    rw [procPages]
    split
    · exact ⟨[], by simp, List.nil_sublist _⟩
    · obtain ⟨l1, hl1, hs1⟩ := procTags_sublist limit p acc
      obtain ⟨l2, hl2, hs2⟩ := ih (procTags limit p acc)
      refine ⟨l1 ++ l2, ?_, ?_⟩
      · rw [hl2, hl1, List.append_assoc]
      · simpa using hs1.append hs2

/-- C9 (amended): whenever the registry pages contain no repeated tag name,
the entries returned by `get_available_versions` are unique by version string;
with repeated tag names a duplicate entry can appear (the loop never
de-duplicates). -/
theorem nodup_get_available_versions (gh : Option GhRelease)
    (pages : List (List TagInfo)) (limit : Nat)
    (h : ((pages.map (fun p => p.map TagInfo.name)).flatten).Nodup) :
    ((get_available_versions gh pages limit).map (·.version)).Nodup := by
  obtain ⟨l, hl, hsub⟩ := procPages_sublist limit pages []
  simp only [List.map_nil, List.nil_append] at hl
  have hvers : ((procPages limit pages []).map (·.version)).Nodup := by
    rw [hl]
    exact hsub.nodup h
  have hsorted : ((List.insertionSort entGe (procPages limit pages [])).map (·.version)).Nodup := by
    have hp := ((List.perm_insertionSort entGe (procPages limit pages [])).map
      (fun x : VEntry => x.version)).symm
    exact hp.nodup hvers
  simp only [get_available_versions]
  rw [List.map_take]
  apply (List.take_sublist limit _).nodup
  split
  · rw [markLatest_map_version]
    exact hsorted
  · exact hsorted

/-! ### Claims C4 and C9 -/

/-- C4 counterexample: with a registry page repeating the tag `1.2.3`, the
fetcher output is not strictly descending by parsed semantic version, so the
claim's strict-descent part fails on the code. -/
theorem get_available_versions_not_strictly_descending :
    ¬ (get_available_versions none [[⟨"1.2.3", "a"⟩, ⟨"1.2.3", "b"⟩]] 20).Pairwise
      (fun a b => svOptCmp (semverParse a.version) (semverParse b.version) = .gt) := by
  decide

/-- C4 (amended): every list returned by `get_available_versions` is
non-strictly descending by parsed semantic version (strictness can fail only
between entries with equal parsed versions, e.g. repeated tags), every entry
parses as a semantic version with an empty prerelease component, and no entry
carries an architecture suffix or a pre-release marker. -/
theorem get_available_versions_descending_and_filtered (gh : Option GhRelease)
    (pages : List (List TagInfo)) (limit : Nat) :
    (get_available_versions gh pages limit).Pairwise entGe ∧
    (∀ e ∈ get_available_versions gh pages limit,
      ∃ v, semverParse e.version = some v ∧ v.pre = []) ∧
    (∀ e ∈ get_available_versions gh pages limit,
      (∀ a ∈ archSuffixes, strHasSub e.version a = false) ∧
      (∀ m ∈ preMarkers, strHasSub (lowerStr e.version) m = false)) := by
  refine ⟨pairwise_get_available_versions gh pages limit, ?_, ?_⟩
  · intro e he
    exact keepTag_parse (mem_get_available_versions he)
  · intro e he
    exact keepTag_noFilters (mem_get_available_versions he)

/-- C4 witness: the amended theorem evaluated at a concrete page. -/
theorem get_available_versions_descending_and_filtered_witness :
    ∃ v, semverParse (VEntry.version ⟨"1.2.3", "a", false⟩) = some v ∧ v.pre = [] := by
  have h := (get_available_versions_descending_and_filtered none [[⟨"1.2.3", "a"⟩]] 20).2.1
  exact h ⟨"1.2.3", "a", false⟩ (by decide)

/-- C9 counterexample: a tag name repeated across pages yields a duplicate
version entry, so uniqueness by version string fails on the code (the loop
never de-duplicates). -/
theorem get_available_versions_duplicate_cex :
    ¬ ((get_available_versions none [[⟨"1.2.3", "a"⟩], [⟨"1.2.3", "b"⟩]] 20).map
      (·.version)).Nodup := by
  decide

/-- C9 witness: the amended theorem evaluated at a concrete page. -/
theorem nodup_get_available_versions_witness :
    ((get_available_versions none [[⟨"1.2.3", "a"⟩]] 20).map (·.version)).Nodup :=
  nodup_get_available_versions none [[⟨"1.2.3", "a"⟩]] 20 (by decide)

/-! ## The Docker engine state model -/

/-- `cpu_usage` / `precpu_usage` sub-dict of a stats snapshot. -/
structure CpuUsageD where
  total_usage : Option Int
  percpu_usage : List Int
deriving DecidableEq, Repr

/-- `cpu_stats` / `precpu_stats` sub-dict (`none` models missing-or-empty,
which is falsy in Python). -/
structure CpuStatsD where
  cpu_usage : Option CpuUsageD
  system_cpu_usage : Option Int
deriving DecidableEq, Repr

/-- `memory_stats` sub-dict. -/
structure MemStatsD where
  usage : Option Int
  limit : Option Int
deriving DecidableEq, Repr

/-- A `container.stats(stream=False)` snapshot. -/
structure StatsD where
  cpu_stats : Option CpuStatsD
  precpu_stats : Option CpuStatsD
  memory_stats : Option MemStatsD
deriving DecidableEq, Repr

/-- One element of `attrs["HostConfig"]["Mounts"]`; each field models the
presence/value of the dict key the code reads (both capitalisations of
destination and mode are read with fallbacks). -/
structure MountRec where
  mType : Option String
  mName : Option String
  mDest : Option String
  mDestLower : Option String
  mMode : Option String
  mModeLower : Option String
deriving DecidableEq, Repr

/-- A docker-py volume config value `{"bind": ..., "mode": ...}`. -/
structure VolCfg where
  bind : String
  mode : String
deriving DecidableEq, Repr

/-- A container as the engine reports it: the attrs fields the code reads,
plus its image's tags/labels (read through `container.image`). -/
structure ContainerRec where
  cid : String
  name : String
  imageTags : List String
  imageLabels : List (String × String)
  imageRepoTags : List String
  env : List String
  portBindings : List (String × List String)
  mounts : List MountRec
  networks : List String
  restartPolicy : String
  status : String
  startedAt : String
  healthStatus : Option (Option String)
  stats : Option StatsD
deriving DecidableEq, Repr

/-- A locally cached image (`client.images.list`): its tags, creation time
string, config labels and repo tags. -/
structure ImageRec where
  tags : List String
  created : String
  labels : List (String × String)
  repoTags : List String
deriving DecidableEq, Repr

/-- The modelled engine state: containers, local images, the set of tags
pullable from the registry, the existing networks, and a fresh-id counter. -/
structure Engine where
  containers : List ContainerRec
  localImages : List ImageRec
  registryTags : List String
  networks : List String
  nextId : Nat
deriving DecidableEq, Repr

/-- `client.containers.get(name)` (by the managed name). -/
def lookupC (st : Engine) (nm : String) : Option ContainerRec :=
  st.containers.find? (fun c => c.name = nm)

/-- Python `dict.get(k)` on a string-keyed dict. -/
def lookupKV (l : List (String × String)) (k : String) : Option String :=
  (l.find? (fun p => p.1 = k)).map (·.2)

/-! ## Status inspector (`get_container_status`) -/

/-- The label keys tried, in order, joined by Python `or` (truthiness). -/
def labelVersion (labels : List (String × String)) : Option String :=
  pyOr (lookupKV labels "org.opencontainers.image.version")
    (pyOr (lookupKV labels "version")
      (pyOr (lookupKV labels "n8n.version") (lookupKV labels "io.n8n.version")))

/-- `tag_part.replace(".", "").replace("-", "").isdigit()`. -/
def numericLooking (l : List Char) : Bool :=
  pyIsdigit (l.filter (fun c => !(c == '.') && !(c == '-')))

/-- Scan `RepoTags` for the first tag with a colon, not ending in `:latest`,
whose last colon-separated part is nonempty and numeric-looking. -/
def repoTagVersion (repoTags : List String) : Option String :=
  repoTags.findSome? (fun rt =>
    if strHasSub rt ":" && !(strEnds rt ":latest") then
      let tpl := ((splitOnC ':' rt.data).getLast?).getD []
      if !tpl.isEmpty && numericLooking tpl then some (⟨tpl⟩ : String) else none
    else none)

/-- Resolution of the floating `latest` tag: labels first, then repo tags;
`none` leaves the version as `"latest"`. -/
def resolveLatest (labels : List (String × String)) (repoTags : List String) :
    Option String :=
  let vl := labelVersion labels
  if pyT vl then vl else repoTagVersion repoTags

/-- Version from the container's image tags: the first tag containing the
image name, if it splits as `repo:version`; the loop breaks at the first
matching tag either way. -/
def versionFromTags (image_name : String) (tags : List String) : String :=
  match tags.find? (fun t => strHasSub t image_name) with
  | none => "unknown"
  | some t =>
    match splitOnC ':' t.data with
    | [_, v] => (⟨v⟩ : String)
    | _ => "unknown"

/-- The effective current version of a container (image name `n8nio/n8n`). -/
def containerVersion (c : ContainerRec) : String :=
  let v := versionFromTags "n8nio/n8n" c.imageTags
  if v = "latest" then
    match resolveLatest c.imageLabels c.imageRepoTags with
    | some v' => v'
    | none => v
  else v

/-- Health: a configured health check's status verbatim, otherwise inferred
from the container status. -/
def healthOf (c : ContainerRec) : String :=
  match c.healthStatus with
  | some hs => hs.getD "unknown"
  | none =>
    if c.status = "running" then "healthy (no health check)"
    else if c.status = "stopped" ∨ c.status = "exited" then "stopped"
    else "unknown"

/-- Python `round(x)` (banker's rounding), on exact rationals. -/
def pyRoundHalfEven (x : ℚ) : Int :=
  let n := ⌊x⌋
  let f := x - n
  if f < 1/2 then n else if 1/2 < f then n + 1 else if Even n then n else n + 1

/-- Python `round(x, 2)` on exact rationals (floats modelled as rationals). -/
def pyRound2 (x : ℚ) : ℚ := ((pyRoundHalfEven (x * 100) : ℚ)) / 100

/-- The CPU-percent computation of the status query. -/
def cpuPercentOf (sd : StatsD) : Option ℚ :=
  match sd.cpu_stats, sd.precpu_stats with
  | some cs, some pcs =>
    match cs.cpu_usage, pcs.cpu_usage with
    | some cu, some pcu =>
      let cpu_delta : Int := cu.total_usage.getD 0 - pcu.total_usage.getD 0
      let system_delta : Int := cs.system_cpu_usage.getD 0 - pcs.system_cpu_usage.getD 0
      if 0 < system_delta ∧ 0 < cpu_delta then
        let num_cpus : Nat := if cu.percpu_usage.isEmpty then 1 else cu.percpu_usage.length
        some (pyRound2 ((cpu_delta : ℚ) / (system_delta : ℚ) * (num_cpus : ℚ) * 100))
      else none
    | _, _ => none
  | _, _ => none

/-- The memory usage/limit/percent triple of the status query. -/
def memTriple (sd : StatsD) : Option Int × Option Int × Option ℚ :=
  match sd.memory_stats with
  | some ms =>
    let usage := ms.usage.getD 0
    let lim := ms.limit.getD 0
    let pct : Option ℚ :=
      if lim ≠ 0 ∧ 0 < lim then some (pyRound2 ((usage : ℚ) / (lim : ℚ) * 100)) else none
    (some usage, some lim, pct)
  | none => (none, none, none)

/-- The status record returned by `get_container_status`. -/
structure StatusView where
  status : String
  current_version : Option String
  started_at : Option String
  health : Option String
  cpu_percent : Option ℚ
  memory_usage : Option Int
  memory_limit : Option Int
  memory_percent : Option ℚ
deriving DecidableEq, Repr

/-- `N8NManager.get_container_status`: absent container yields `not_found`
with all other fields null (the `NotFound` engine error is caught, not
raised); a failing stats call is swallowed (modelled by `stats = none`). -/
def get_container_status (st : Engine) (cname : String) : StatusView :=
  match lookupC st cname with
  | none =>
    { status := "not_found", current_version := none, started_at := none,
      health := none, cpu_percent := none, memory_usage := none,
      memory_limit := none, memory_percent := none }
  | some c =>
    let quad : Option ℚ × Option Int × Option Int × Option ℚ :=
      if c.status = "running" then
        match c.stats with
        | some sd =>
          let t := memTriple sd
          (cpuPercentOf sd, t.1, t.2.1, t.2.2)
        | none => (none, none, none, none)
      else (none, none, none, none)
    { status := c.status, current_version := some (containerVersion c),
      started_at := some c.startedAt, health := some (healthOf c),
      cpu_percent := quad.1, memory_usage := quad.2.1,
      memory_limit := quad.2.2.1, memory_percent := quad.2.2.2 }

/-! ## Pre-upgrade checker (`pre_upgrade_checks`) -/

/-- A `PreUpgradeReport`: `{"safe": bool, "warnings": [str]}`. -/
structure Report where
  safe : Bool
  warnings : List String
deriving DecidableEq, Repr

/-- The advisory test the code applies to each warning: `"consider" in w.lower()`. -/
def advisoryW (w : String) : Bool := strHasSub (lowerStr w) "consider"

def majorJumpMsg (cv tv : String) : String :=
  "Major version jump detected: " ++ cv ++ " -> " ++ tv ++
    ". Please review n8n release notes for breaking changes."

def largeGapMsg (d : Int) : String :=
  "Large version gap detected (" ++ intToStr d ++
    " minor versions). Consider incremental upgrades."

def downgradeMsg (cv tv : String) : String :=
  "Downgrading from " ++ cv ++ " to " ++ tv ++ ". This may cause data compatibility issues."

/-- The `str(e)` of the `semver` library's parse `ValueError`. -/
def invalidVersionMsg (s : String) : String := s ++ " is not valid SemVer string"

def unknownVersionWarning : String := "Current version unknown, proceeding with caution"

/-- The body of the `try` block of `pre_upgrade_checks`, given the current
version read from the status query; `.error` carries the `str(e)` of the
exception the body would raise (a semver parse `ValueError`). -/
def pre_upgrade_checks_body (cv : Option String) (tv : String) : Except String Report :=
  if ¬ (pyT cv = true) ∨ cv = some "unknown" then
    .ok ⟨true, [unknownVersionWarning]⟩
  else
    let cs := cv.getD ""
    match semverParse cs with
    | none => .error (invalidVersionMsg cs)
    | some current =>
      match semverParse tv with
      | none => .error (invalidVersionMsg tv)
      | some target =>
        let w1 : List String :=
          if current.major < target.major then [majorJumpMsg cs tv] else []
        let w2 : List String :=
          if target.major = current.major ∧ 10 < (target.minor : Int) - (current.minor : Int)
          then [largeGapMsg ((target.minor : Int) - (current.minor : Int))] else []
        let w3 : List String :=
          if svCmp target current = Ordering.lt then [downgradeMsg cs tv] else []
        let warnings := w1 ++ w2 ++ w3
        .ok ⟨warnings.isEmpty || warnings.all advisoryW, warnings⟩

/-- `N8NManager.pre_upgrade_checks`: any exception of the body is caught and
converted into a `safe = false` report with a single wrapped warning — the
function itself never raises. -/
def pre_upgrade_checks (st : Engine) (cname : String) (tv : String) : Report :=
  match pre_upgrade_checks_body (get_container_status st cname).current_version tv with
  | .ok r => r
  | .error msg => ⟨false, ["Version check failed: " ++ msg]⟩

/-- A running container named `nm` whose image carries the single tag `tag`. -/
def mkContainer (nm tag : String) : ContainerRec :=
  { cid := "c0", name := nm, imageTags := [tag], imageLabels := [],
    imageRepoTags := [tag], env := [], portBindings := [("5678/tcp", ["5678"])],
    mounts := [⟨some "volume", some "n8n_data", some "/home/node/.n8n", none, some "rw", none⟩],
    networks := [], restartPolicy := "unless-stopped", status := "running",
    startedAt := "2024-01-01T00:00:00Z", healthStatus := none, stats := none }

/-- An engine whose managed container `n8n` runs `n8nio/n8n:<v>`. -/
def engWith (v : String) : Engine :=
  { containers := [mkContainer "n8n" ("n8nio/n8n:" ++ v)], localImages := [],
    registryTags := [], networks := [], nextId := 1 }

/-- The empty engine (no containers, images, networks). -/
def emptyEng : Engine :=
  { containers := [], localImages := [], registryTags := [], networks := [], nextId := 0 }

/-! ### Claims C5, C6, C7 -/

/-- C7: when no container with the managed name exists, `get_container_status`
returns status `not_found` with every other field null; the engine's
`NotFound` error is caught inside the function, so nothing is raised (the
embedding is a total function). -/
theorem get_container_status_not_found (st : Engine) (cname : String)
    (h : lookupC st cname = none) :
    get_container_status st cname =
      ⟨"not_found", none, none, none, none, none, none, none⟩ := by
  unfold get_container_status
  rw [h]

/-- C7 witness: the theorem applied to the empty engine. -/
theorem get_container_status_not_found_witness :
    get_container_status emptyEng "n8n" =
      ⟨"not_found", none, none, none, none, none, none, none⟩ :=
  get_container_status_not_found emptyEng "n8n" rfl

/-- C5 counterexample: when the current version is unknown the code returns
`safe = true` together with one warning that does not carry the code's
advisory marker (`"consider"`), so "safe iff no warnings or all advisory"
fails as a universal statement. -/
theorem pre_upgrade_checks_safe_iff_cex :
    ¬ (((pre_upgrade_checks emptyEng "n8n" "1.0.0").safe = true) ↔
      ((pre_upgrade_checks emptyEng "n8n" "1.0.0").warnings = [] ∨
        ∀ w ∈ (pre_upgrade_checks emptyEng "n8n" "1.0.0").warnings,
          advisoryW w = true)) := by
  decide

/-- Bridge between the code's boolean `safe` expression and the claim's
phrasing of it. -/
theorem safe_iff_aux (ws : List String) :
    (ws.isEmpty || ws.all advisoryW) = true ↔
      (ws = [] ∨ ∀ w ∈ ws, advisoryW w = true) := by
  simp [List.isEmpty_iff, List.all_eq_true]

/-- C5 (amended): the four concrete checks hold as claimed; the safe-iff
characterisation holds on the comparison path (current version known and both
versions parse); on the unknown-current-version path the report is hardwired
to `safe = true` with a single non-advisory warning. -/
theorem pre_upgrade_checks_cases :
    pre_upgrade_checks (engWith "1.0.0") "n8n" "2.0.0" =
      ⟨false, [majorJumpMsg "1.0.0" "2.0.0"]⟩ ∧
    pre_upgrade_checks (engWith "1.0.0") "n8n" "1.15.0" =
      ⟨true, [largeGapMsg 15]⟩ ∧
    pre_upgrade_checks (engWith "2.0.0") "n8n" "1.0.0" =
      ⟨false, [downgradeMsg "2.0.0" "1.0.0"]⟩ ∧
    pre_upgrade_checks (engWith "1.0.0") "n8n" "1.0.1" = ⟨true, []⟩ ∧
    (∀ (cv tv : String) (cur tgt : Semver),
      pyT (some cv) = true → cv ≠ "unknown" →
      semverParse cv = some cur → semverParse tv = some tgt →
      ∃ r, pre_upgrade_checks_body (some cv) tv = .ok r ∧
        (r.safe = true ↔
          (r.warnings = [] ∨ ∀ w ∈ r.warnings, advisoryW w = true))) ∧
    (∀ (cv : Option String) (tv : String),
      (¬ pyT cv = true ∨ cv = some "unknown") →
      pre_upgrade_checks_body cv tv = .ok ⟨true, [unknownVersionWarning]⟩ ∧
        advisoryW unknownVersionWarning = false) := by
  refine ⟨by decide, by decide, by decide, by decide, ?_, ?_⟩
  · intro cv tv cur tgt h1 h2 h3 h4
    have hcond : ¬(¬ (pyT (some cv) = true) ∨ (some cv : Option String) = some "unknown") := by
      rintro (h | h)
      · exact h h1
      · exact h2 (Option.some.injEq .. ▸ h ▸ rfl)
    unfold pre_upgrade_checks_body
    rw [if_neg hcond]
    simp only [Option.getD_some, h3, h4]
    exact ⟨_, rfl, safe_iff_aux _⟩
  · intro cv tv h
    refine ⟨?_, by decide⟩
    unfold pre_upgrade_checks_body
    rw [if_pos h]

/-- C5 witness: the comparison-path conjunct applied at a concrete input. -/
theorem pre_upgrade_checks_cases_witness :
    ∃ r, pre_upgrade_checks_body (some "1.0.0") "1.0.1" = .ok r ∧
      (r.safe = true ↔ (r.warnings = [] ∨ ∀ w ∈ r.warnings, advisoryW w = true)) :=
  pre_upgrade_checks_cases.2.2.2.2.1 "1.0.0" "1.0.1" ⟨1, 0, 0, [], []⟩ ⟨1, 0, 1, [], []⟩
    (by decide) (by decide) (by decide) (by decide)

/-- C6 counterexample: with current version `1.0.0` and unparseable target
`oops`, the body raises the semver parse error but `pre_upgrade_checks`
catches it and returns a plain report (`safe = false` with a wrapped warning);
no `InvalidVersionError` reaches the caller. -/
theorem pre_upgrade_checks_no_raise_cex :
    pre_upgrade_checks_body (some "1.0.0") "oops" = .error (invalidVersionMsg "oops") ∧
    pre_upgrade_checks (engWith "1.0.0") "n8n" "oops" =
      ⟨false, ["Version check failed: oops is not valid SemVer string"]⟩ :=
  ⟨rfl, by decide⟩

/-- C6 (amended): when the current version is known and either version fails
semantic-version parsing, the parse failure is raised inside the body but
caught by `pre_upgrade_checks`, which returns a report with `safe = false`
and the single warning `Version check failed: <v> is not valid SemVer string`
instead of surfacing an `InvalidVersionError` to the caller. -/
theorem pre_upgrade_checks_invalid_version (cv tv : String)
    (h1 : pyT (some cv) = true) (h2 : cv ≠ "unknown")
    (h3 : semverParse cv = none ∨ semverParse tv = none) :
    ∃ m, (m = cv ∨ m = tv) ∧
      pre_upgrade_checks_body (some cv) tv = .error (invalidVersionMsg m) ∧
      ∀ (st : Engine) (cname : String),
        (get_container_status st cname).current_version = some cv →
        pre_upgrade_checks st cname tv =
          ⟨false, ["Version check failed: " ++ invalidVersionMsg m]⟩ := by
  have hcond : ¬(¬ (pyT (some cv) = true) ∨ (some cv : Option String) = some "unknown") := by
    rintro (h | h)
    · exact h h1
    · exact h2 (Option.some.injEq .. ▸ h ▸ rfl)
  cases hp : semverParse cv with
  | none =>
    have hbody : pre_upgrade_checks_body (some cv) tv = .error (invalidVersionMsg cv) := by
      unfold pre_upgrade_checks_body
      rw [if_neg hcond]
      simp only [Option.getD_some, hp]
    refine ⟨cv, .inl rfl, hbody, ?_⟩
    intro st cname hst
    unfold pre_upgrade_checks
    rw [hst, hbody]
  | some cur =>
    rcases h3 with h3 | h3
    · rw [hp] at h3; cases h3
    · have hbody : pre_upgrade_checks_body (some cv) tv = .error (invalidVersionMsg tv) := by
        unfold pre_upgrade_checks_body
        rw [if_neg hcond]
        simp only [Option.getD_some, hp, h3]
      refine ⟨tv, .inr rfl, hbody, ?_⟩
      intro st cname hst
      unfold pre_upgrade_checks
      rw [hst, hbody]

/-- C6 witness: the amended theorem applied at a concrete input. -/
theorem pre_upgrade_checks_invalid_version_witness :
    ∃ m, (m = "1.0.0" ∨ m = "oops") ∧
      pre_upgrade_checks_body (some "1.0.0") "oops" = .error (invalidVersionMsg m) ∧
      ∀ (st : Engine) (cname : String),
        (get_container_status st cname).current_version = some "1.0.0" →
        pre_upgrade_checks st cname "oops" =
          ⟨false, ["Version check failed: " ++ invalidVersionMsg m]⟩ :=
  pre_upgrade_checks_invalid_version "1.0.0" "oops" (by decide) (by decide)
    (.inr (by decide))

/-! ## Upgrade orchestrator (`update_to_version`) -/

/-- Engine-call events of one upgrade, in order of occurrence. -/
inductive UEv
  | progress (msg : String)
  | stopEv
  | removeEv
  | pullEv (tag : String)
  | createEv (nm : String)
  | connectEv (net : String)
  | startEv
deriving DecidableEq, Repr

/-- The exception kinds the orchestration can raise; `wrapped` models the
source's `raise Exception(f"{ctx}: {str(e)}")` re-raise. -/
inductive DErr
  | imageNotFound (tag : String)
  | notFound
  | apiConflict (nm : String)
  | valueError (s : String)
  | callbackErr (msg : String)
  | pyExc (msg : String)
  | wrapped (ctx : String) (inner : DErr)
deriving DecidableEq, Repr

deriving instance DecidableEq for Except

/-- Does the progress callback return normally on this message?  A callback
is modelled as `String → Bool`: `false` means its invocation raises. -/
def cbOk (cb : Option (String → Bool)) (msg : String) : Bool :=
  match cb with
  | none => true
  | some f => f msg

/-- The progress event emitted by `if callback: callback(msg)` (none when no
callback was supplied, since no call happens). -/
def progEv (cb : Option (String → Bool)) (msg : String) : List UEv :=
  match cb with
  | none => []
  | some _ => [.progress msg]

/-- Keys of the captured port-binding dict: ints (parsed from `"5678/tcp"`)
or raw strings (keys without a `/`). -/
inductive PKey
  | pint (n : Int)
  | pstr (s : String)
deriving DecidableEq, Repr

/-- The `ContainerRuntimeConfig` captured before recreation. -/
structure Captured where
  ports_config : Option (List (PKey × Int))
  volumes_config : Option (List (String × VolCfg))
  network_config : Option String
  env_dict : List (String × String)

/-- CPython-dict upsert on an association list: overwrite in place, else
append (insertion order preserved). -/
def upsert {κ ν : Type} [DecidableEq κ] (l : List (κ × ν)) (k : κ) (v : ν) :
    List (κ × ν) :=
  if (l.find? (fun p => p.1 = k)).isSome then
    l.map (fun p => if p.1 = k then (k, v) else p)
  else l ++ [(k, v)]

/-- Parse `Config.Env` entries `"K=V"` (split at the first `=`) into a dict. -/
def parseEnv (env_vars : List String) : List (String × String) :=
  env_vars.foldl (fun acc e =>
    if strHasSub e "=" then
      upsert acc (⟨e.data.takeWhile (· ≠ '=')⟩ : String)
        (⟨(e.data.dropWhile (· ≠ '=')).drop 1⟩ : String)
    else acc) []

/-- Python `int(s)`, raising `ValueError` on failure. -/
def pyIntE (s : String) : Except DErr Int :=
  match pyInt s.data with
  | some n => .ok n
  | none => .error (.valueError s)

/-- `port_num = int(container_port.split("/")[0])` when the key has a slash,
else the raw string key. -/
def pkeyOfAttr (key : String) : Except DErr PKey :=
  if strHasSub key "/" then
    (pyIntE (⟨key.data.takeWhile (· ≠ '/')⟩ : String)).map .pint
  else .ok (.pstr key)

/-- Capture `HostConfig.PortBindings` into `ports_config` (`none` when the
dict is empty/falsy; entries with an empty bindings list are skipped). -/
def capturePorts (pbs : List (String × List String)) :
    Except DErr (Option (List (PKey × Int))) :=
  if pbs.isEmpty then .ok none
  else do
    let l ← pbs.foldlM (fun acc (kv : String × List String) =>
      match kv.2 with
      | [] => pure acc
      | h :: _ => do
        let pk ← pkeyOfAttr kv.1
        let hp ← pyIntE h
        pure (upsert acc pk hp)) ([] : List (PKey × Int))
    pure (some l)

/-- Capture `HostConfig.Mounts` into `volumes_config` (`none` when the
list is empty/falsy; only volume-type mounts with truthy name and
destination are kept). -/
def captureVols (ms : List MountRec) : Option (List (String × VolCfg)) :=
  if ms.isEmpty then none
  else some (ms.foldl (fun acc m =>
    if m.mType = some "volume" then
      let destination := pyOr m.mDest m.mDestLower
      if pyT m.mName = true ∧ pyT destination = true then
        upsert acc (m.mName.getD "")
          ⟨destination.getD "", m.mMode.getD (m.mModeLower.getD "rw")⟩
      else acc
    else acc) [])

/-- The capture step over an existing container: env, ports, volumes and the
first attached network. -/
def captureFromC (c : ContainerRec) : Except DErr Captured := do
  let env_dict := parseEnv c.env
  let ports ← capturePorts c.portBindings
  let vols := captureVols c.mounts
  pure ⟨ports, vols, c.networks.head?, env_dict⟩

/-- The hard-coded fallback used when the managed container does not exist. -/
def defaultCaptured : Captured :=
  ⟨some [(.pint 5678, 5678)], some [("n8n_data", ⟨"/home/node/.n8n", "rw"⟩)], none, []⟩

/-- Apply `f` to the container with the given engine id. -/
def mapById (st : Engine) (cid : String) (f : ContainerRec → ContainerRec) : Engine :=
  { st with containers :=
      st.containers.map (fun c => if c.cid = cid then f c else c) }

/-- `container.stop(timeout=60)` (the 60s bound is engine policy, not state). -/
def stopById (st : Engine) (cid : String) : Engine :=
  mapById st cid (fun c => { c with status := "exited" })

/-- `container.remove()`. -/
def removeById (st : Engine) (cid : String) : Engine :=
  { st with containers := st.containers.filter (fun c => decide (c.cid ≠ cid)) }

/-- `network.connect(container)`. -/
def connectById (st : Engine) (cid net : String) : Engine :=
  mapById st cid (fun c => { c with networks := c.networks ++ [net] })

/-- `container.start()`. -/
def startById (st : Engine) (cid : String) : Engine :=
  mapById st cid (fun c => { c with status := "running" })

/-- `client.images.pull(tag)`: fails with `ImageNotFound` when the tag is not
in the registry, otherwise ensures a local image with that tag exists. -/
def pullImage (st : Engine) (tag : String) : Except DErr Engine :=
  if tag ∈ st.registryTags then
    if st.localImages.any (fun im => tag ∈ im.tags) then .ok st
    else .ok { st with localImages := st.localImages ++ [⟨[tag], "", [], [tag]⟩] }
  else .error (.imageNotFound tag)

/-- The host config handed to `create_host_config`. -/
structure HostCfg where
  port_bindings : List (Int × Int)
  restartPolicyName : String
  binds : List (String × String)
deriving DecidableEq, Repr

/-- Python truthiness of an optional list (empty dict/list is falsy). -/
def pyTL {α : Type} : Option (List α) → Bool
  | none => false
  | some l => !l.isEmpty

/-- Rebuild `port_bindings_dict` and `ports_list` from the captured ports
(or the 5678 default when the captured dict is falsy). -/
def rebuildPorts (pc : Option (List (PKey × Int))) :
    Except DErr (List (Int × Int) × List Int) :=
  if pyTL pc then
    (pc.getD []).foldlM (fun (acc : List (Int × Int) × List Int) (kv : PKey × Int) => do
      let cp : Int ←
        match kv.1 with
        | .pint n => pure n
        | .pstr s =>
          if strHasSub s "/" then pyIntE (⟨s.data.takeWhile (· ≠ '/')⟩ : String)
          else pyIntE s
      pure (upsert acc.1 cp kv.2, acc.2 ++ [cp])) ([], [])
  else .ok ([(5678, 5678)], [5678])

/-- `client.api.create_container(...)`: fails on a name conflict, otherwise
adds a `created` container carrying the host config's bindings; the
`ports`/`volumes` declaration lists are accepted but never read back by this
code.  The fresh engine id is the decimal of `nextId`. -/
def createContainer (st : Engine) (nm image_tag : String) (hc : HostCfg)
    (env_list : List String) (_ports_list : List Int) (_volumes_list : List String) :
    Except DErr (Engine × String) :=
  if (lookupC st nm).isSome then .error (.apiConflict nm)
  else
    let img := st.localImages.find? (fun im => image_tag ∈ im.tags)
    let cid := natToStr st.nextId
    let newC : ContainerRec :=
      { cid := cid, name := nm, imageTags := [image_tag],
        imageLabels := (img.map (·.labels)).getD [],
        imageRepoTags := (img.map (·.repoTags)).getD [image_tag],
        env := env_list,
        portBindings := hc.port_bindings.map
          (fun pq => (intToStr pq.1 ++ "/tcp", [intToStr pq.2])),
        mounts := hc.binds.map
          (fun b => ⟨some "volume", some b.1, some b.2, none, some "rw", none⟩),
        networks := [], restartPolicy := hc.restartPolicyName,
        status := "created", startedAt := "", healthStatus := none, stats := none }
    .ok ({ st with containers := st.containers ++ [newC], nextId := st.nextId + 1 }, cid)

/-- `client.containers.get(id)`. -/
def findById (st : Engine) (cid : String) : Option ContainerRec :=
  st.containers.find? (fun c => c.cid = cid)

/-- Network reattachment: try the captured network, else best-effort scan for
a network whose name contains `web` (lowercased) or the captured name;
failure to attach is silently ignored. -/
def networkPhase (st : Engine) (ncfg : Option String) (cid : String) :
    Engine × List UEv :=
  match ncfg with
  | none => (st, [])
  | some n =>
    if n ∈ st.networks then (connectById st cid n, [.connectEv n])
    else
      match st.networks.find? (fun net => strHasSub (lowerStr net) "web" || strHasSub net n) with
      | some net => (connectById st cid net, [.connectEv net])
      | none => (st, [])

def msgGetting : String := "Getting current container configuration..."
def msgStopping : String := "Stopping current container..."
def msgRemoving : String := "Removing old container..."
def msgNotFoundCreate : String := "Container not found, creating new one..."
def msgPulling (tv : String) : String := "Pulling image n8nio/n8n:" ++ tv ++ "..."
def msgCreating : String := "Creating new container..."
def msgStarting : String := "Starting new container..."
def msgComplete : String := "Upgrade complete!"

/-- Steps of `update_to_version` from the pull onwards (shared by the
found-and-captured and the not-found-defaults paths). -/
def update_phase2 (st : Engine) (cname target : String)
    (cb : Option (String → Bool)) (cap : Captured) (tr : List UEv) :
    Except DErr String × Engine × List UEv :=
  let t1 := tr ++ progEv cb (msgPulling target)
  if ¬ cbOk cb (msgPulling target) = true then
    (.error (.callbackErr (msgPulling target)), st, t1)
  else
    let image_tag := "n8nio/n8n:" ++ target
    match pullImage st image_tag with
    | .error e => (.error e, st, t1 ++ [.pullEv image_tag])
    | .ok st1 =>
      let t2 := t1 ++ [.pullEv image_tag] ++ progEv cb msgCreating
      if ¬ cbOk cb msgCreating = true then (.error (.callbackErr msgCreating), st1, t2)
      else
        match rebuildPorts cap.ports_config with
        | .error e => (.error e, st1, t2)
        | .ok pl =>
          let env_list := cap.env_dict.map (fun kv => kv.1 ++ "=" ++ kv.2)
          let volumes :=
            if pyTL cap.volumes_config = true then cap.volumes_config.getD []
            else [("n8n_data", (⟨"/home/node/.n8n", "rw"⟩ : VolCfg))]
          -- the source's `validated_volumes` re-validation is the identity
          -- here: every typed `VolCfg` value carries a `bind`
          let validated_volumes := volumes
          let host_config : HostCfg :=
            ⟨pl.1, "unless-stopped", validated_volumes.map (fun v => (v.1, v.2.bind))⟩
          let volumes_list := validated_volumes.map (fun v => v.2.bind)
          match createContainer st1 cname image_tag host_config env_list pl.2 volumes_list with
          | .error e => (.error e, st1, t2)
          | .ok sc =>
            let t3 := t2 ++ [.createEv cname]
            match findById sc.1 sc.2 with
            | none => (.error .notFound, sc.1, t3)
            | some newC =>
              let np := networkPhase sc.1 cap.network_config newC.cid
              let t4 := t3 ++ np.2 ++ progEv cb msgStarting
              if ¬ cbOk cb msgStarting = true then
                (.error (.callbackErr msgStarting), np.1, t4)
              else
                let st3 := startById np.1 newC.cid
                let t5 := t4 ++ [.startEv] ++ progEv cb msgComplete
                if ¬ cbOk cb msgComplete = true then
                  (.error (.callbackErr msgComplete), st3, t5)
                else (.ok newC.cid, st3, t5)

/-- The body of `update_to_version`'s `try` block: capture (or defaults),
stop, remove, then `update_phase2`. -/
def update_core (st : Engine) (cname target : String)
    (cb : Option (String → Bool)) : Except DErr String × Engine × List UEv :=
  let t0 := progEv cb msgGetting
  if ¬ cbOk cb msgGetting = true then (.error (.callbackErr msgGetting), st, t0)
  else
    match lookupC st cname with
    | some c =>
      match captureFromC c with
      | .error e => (.error e, st, t0)
      | .ok cap =>
        let t1 := t0 ++ progEv cb msgStopping
        if ¬ cbOk cb msgStopping = true then (.error (.callbackErr msgStopping), st, t1)
        else
          let st1 := stopById st c.cid
          let t2 := t1 ++ [.stopEv] ++ progEv cb msgRemoving
          if ¬ cbOk cb msgRemoving = true then
            (.error (.callbackErr msgRemoving), st1, t2)
          else
            let st2 := removeById st1 c.cid
            update_phase2 st2 cname target cb cap (t2 ++ [.removeEv])
    | none =>
      let t1 := t0 ++ progEv cb msgNotFoundCreate
      if ¬ cbOk cb msgNotFoundCreate = true then
        (.error (.callbackErr msgNotFoundCreate), st, t1)
      else update_phase2 st cname target cb defaultCaptured t1

/-- `N8NManager.update_to_version`: the outer `except` wraps any failure as
`Failed to update container: <e>`. -/
def update_to_version (st : Engine) (cname target : String)
    (cb : Option (String → Bool)) : Except DErr String × Engine × List UEv :=
  match update_core st cname target cb with
  | (.error e, st', tr) => (.error (.wrapped "Failed to update container" e), st', tr)
  | r => r

/-! ### Engine lemmas for the upgrade proofs -/

theorem find?_map_invariant {α : Type _} (l : List α) (g : α → α) (p : α → Bool)
    (hp : ∀ a, p (g a) = p a) :
    (l.map g).find? p = (l.find? p).map g := by
  induction l with
  | nil => rfl
  | cons x xs ih =>
    simp only [List.map_cons, List.find?]
    rw [hp x]
    cases hpx : p x <;> simp [ih]

theorem find?_append_last {α : Type _} (l : List α) (a : α) (p : α → Bool)
    (hl : ∀ x ∈ l, ¬ p x = true) (ha : p a = true) :
    (l ++ [a]).find? p = some a := by
  induction l with
  | nil => simp [List.find?, ha]
  | cons x xs ih =>
    have hx : p x = false := by
      cases hpx : p x
      · rfl
      · exact absurd hpx (hl x (List.mem_cons_self x xs))
    simp only [List.cons_append, List.find?, hx]
    exact ih (fun y hy => hl y (List.mem_cons_of_mem x hy))

theorem lookupC_mapById (st : Engine) (cid : String) (f : ContainerRec → ContainerRec)
    (hf : ∀ c, (f c).name = c.name) (nm : String) :
    lookupC (mapById st cid f) nm =
      (lookupC st nm).map (fun c => if c.cid = cid then f c else c) := by
  unfold lookupC mapById
  exact find?_map_invariant st.containers _ _ (fun a => by
    by_cases h : a.cid = cid <;> simp [h, hf])

theorem findById_mapById (st : Engine) (cid0 : String) (f : ContainerRec → ContainerRec)
    (hf : ∀ c, (f c).cid = c.cid) (cid : String) :
    findById (mapById st cid0 f) cid =
      (findById st cid).map (fun c => if c.cid = cid0 then f c else c) := by
  unfold findById mapById
  exact find?_map_invariant st.containers _ _ (fun a => by
    by_cases h : a.cid = cid0 <;> simp [h, hf])

/-- Membership facts delivered by a successful `lookupC`. -/
theorem lookupC_spec {st : Engine} {nm : String} {c : ContainerRec}
    (h : lookupC st nm = some c) : c ∈ st.containers ∧ c.name = nm := by
  unfold lookupC at h
  refine ⟨List.mem_of_find?_eq_some h, ?_⟩
  have := List.find?_some h
  simpa using this

/-- After the stop and remove steps, the managed name is unbound (given the
engine invariant that container names are unique). -/
theorem lookupC_after_remove (st : Engine) (cname : String) (c : ContainerRec)
    (hc : lookupC st cname = some c)
    (hnames : (st.containers.map (·.name)).Nodup) :
    lookupC (removeById (stopById st c.cid) c.cid) cname = none := by
  obtain ⟨hmem, hname⟩ := lookupC_spec hc
  unfold lookupC removeById stopById mapById
  rw [List.find?_eq_none]
  intro x hx
  simp only [List.mem_filter, List.mem_map] at hx
  obtain ⟨⟨y, hy, rfl⟩, hcid⟩ := hx
  simp only [decide_eq_true_eq] at hcid
  intro hxn
  simp only [decide_eq_true_eq] at hxn
  have hyname : y.name = cname := by
    by_cases h : y.cid = c.cid
    · simpa [h] using hxn
    · simpa [h] using hxn
  have hinj := List.inj_on_of_nodup_map hnames
  have : y = c := hinj hy hmem (by rw [hyname, hname])
  subst this
  simp at hcid

/-- The containers surviving stop+remove keep names different from the
managed name and keep their original ids. -/
theorem mem_after_remove {st : Engine} {cid : String} {x : ContainerRec}
    (hx : x ∈ (removeById (stopById st cid) cid).containers) :
    ∃ y ∈ st.containers, x.name = y.name ∧ x.cid = y.cid ∧ x.cid ≠ cid := by
  unfold removeById stopById mapById at hx
  simp only [List.mem_filter, List.mem_map] at hx
  obtain ⟨⟨y, hy, rfl⟩, hcid⟩ := hx
  simp only [decide_eq_true_eq] at hcid
  by_cases h : y.cid = cid
  · simp [h] at hcid
  · exact ⟨y, hy, by simp [h], by simp [h], by simp [h]⟩

/-- `pullImage` succeeds exactly on registry tags and only adds a local
image; containers, networks, registry and the id counter are untouched. -/
theorem pullImage_ok (st : Engine) (tag : String) (h : tag ∈ st.registryTags) :
    ∃ st', pullImage st tag = .ok st' ∧ st'.containers = st.containers ∧
      st'.nextId = st.nextId ∧ st'.networks = st.networks ∧
      st'.registryTags = st.registryTags := by
  unfold pullImage
  rw [if_pos h]
  split
  · exact ⟨st, rfl, rfl, rfl, rfl, rfl⟩
  · exact ⟨_, rfl, rfl, rfl, rfl, rfl⟩

/-- The two shapes `networkPhase` can leave the engine in. -/
theorem networkPhase_cases (st : Engine) (ncfg : Option String) (cid : String) :
    (networkPhase st ncfg cid).1 = st ∨
      ∃ n, (networkPhase st ncfg cid).1 = connectById st cid n := by
  cases ncfg with
  | none => exact .inl rfl
  | some n =>
    by_cases h : n ∈ st.networks
    · exact .inr ⟨n, by simp [networkPhase, h]⟩
    · cases hf : st.networks.find?
        (fun net => strHasSub (lowerStr net) "web" || strHasSub net n) with
      | none => exact .inl (by simp [networkPhase, h, hf])
      | some net => exact .inr ⟨net, by simp [networkPhase, h, hf]⟩

/-- Evaluation of `update_phase2` when every fallible step succeeds and no
callback is supplied. -/
theorem update_phase2_unfold (st : Engine) (cname target : String) (cap : Captured)
    (tr : List UEv) (st1 : Engine)
    (hpl : pullImage st ("n8nio/n8n:" ++ target) = .ok st1)
    (prt : List (Int × Int) × List Int)
    (hprt : rebuildPorts cap.ports_config = .ok prt)
    (st2 : Engine) (cid : String)
    (hcr : createContainer st1 cname ("n8nio/n8n:" ++ target)
      ⟨prt.1, "unless-stopped",
       (if pyTL cap.volumes_config = true then cap.volumes_config.getD []
        else [("n8n_data", ⟨"/home/node/.n8n", "rw"⟩)]).map (fun v => (v.1, v.2.bind))⟩
      (cap.env_dict.map (fun kv => kv.1 ++ "=" ++ kv.2)) prt.2
      ((if pyTL cap.volumes_config = true then cap.volumes_config.getD []
        else [("n8n_data", ⟨"/home/node/.n8n", "rw"⟩)]).map (fun v => v.2.bind)) =
      .ok (st2, cid))
    (newC : ContainerRec) (hfind : findById st2 cid = some newC) :
    update_phase2 st cname target none cap tr =
      (.ok newC.cid,
       startById (networkPhase st2 cap.network_config newC.cid).1 newC.cid,
       tr ++ [UEv.pullEv ("n8nio/n8n:" ++ target), UEv.createEv cname] ++
         (networkPhase st2 cap.network_config newC.cid).2 ++ [UEv.startEv]) := by
  simp only [update_phase2, cbOk, progEv]
  rw [hpl]
  dsimp only
  rw [hprt]
  dsimp only
  rw [hcr]
  dsimp only
  rw [hfind]
  dsimp only
  simp [List.append_assoc]

/-- Successful container creation: the new container and its attrs. -/
theorem createContainer_ok (st : Engine) (nm tag : String) (hc : HostCfg)
    (env : List String) (pl : List Int) (vl : List String)
    (hfree : lookupC st nm = none) :
    ∃ stc c, createContainer st nm tag hc env pl vl = .ok (stc, c.cid) ∧
      stc.containers = st.containers ++ [c] ∧ stc.nextId = st.nextId + 1 ∧
      stc.networks = st.networks ∧ stc.registryTags = st.registryTags ∧
      c.cid = natToStr st.nextId ∧ c.name = nm ∧
      c.portBindings = hc.port_bindings.map
        (fun pq => (intToStr pq.1 ++ "/tcp", [intToStr pq.2])) ∧
      c.mounts = hc.binds.map
        (fun b => ⟨some "volume", some b.1, some b.2, none, some "rw", none⟩) ∧
      c.restartPolicy = hc.restartPolicyName ∧ c.status = "created" ∧
      c.networks = [] := by
  refine ⟨{ st with
      containers := st.containers ++
        [{ cid := natToStr st.nextId, name := nm, imageTags := [tag],
           imageLabels := ((st.localImages.find? (fun im => tag ∈ im.tags)).map
             (·.labels)).getD [],
           imageRepoTags := ((st.localImages.find? (fun im => tag ∈ im.tags)).map
             (·.repoTags)).getD [tag],
           env := env,
           portBindings := hc.port_bindings.map
             (fun pq => (intToStr pq.1 ++ "/tcp", [intToStr pq.2])),
           mounts := hc.binds.map
             (fun b => ⟨some "volume", some b.1, some b.2, none, some "rw", none⟩),
           networks := [], restartPolicy := hc.restartPolicyName, status := "created",
           startedAt := "", healthStatus := none, stats := none }],
      nextId := st.nextId + 1 },
    { cid := natToStr st.nextId, name := nm, imageTags := [tag],
      imageLabels := ((st.localImages.find? (fun im => tag ∈ im.tags)).map
        (·.labels)).getD [],
      imageRepoTags := ((st.localImages.find? (fun im => tag ∈ im.tags)).map
        (·.repoTags)).getD [tag],
      env := env,
      portBindings := hc.port_bindings.map
        (fun pq => (intToStr pq.1 ++ "/tcp", [intToStr pq.2])),
      mounts := hc.binds.map
        (fun b => ⟨some "volume", some b.1, some b.2, none, some "rw", none⟩),
      networks := [], restartPolicy := hc.restartPolicyName, status := "created",
      startedAt := "", healthStatus := none, stats := none },
    ?_, rfl, rfl, rfl, rfl, rfl, rfl, rfl, rfl, rfl, rfl, rfl⟩
  unfold createContainer
  rw [hfree]
  rfl

/-- With no callback, an existing managed container reduces `update_core`
to capture, stop, remove, then `update_phase2`. -/
theorem update_core_found (st : Engine) (cname target : String) (c : ContainerRec)
    (cap : Captured)
    (hc : lookupC st cname = some c) (hcap : captureFromC c = .ok cap) :
    update_core st cname target none =
      update_phase2 (removeById (stopById st c.cid) c.cid) cname target none cap
        [UEv.stopEv, UEv.removeEv] := by
  simp only [update_core, cbOk, progEv]
  rw [hc]
  dsimp only
  rw [hcap]
  rfl

/-- C1: when the managed container exists with captured port mapping
`{5678: 5678}` and volume `n8n_data` at `/home/node/.n8n`, and the target tag
exists upstream, `update_to_version` recreates a running container under the
same managed name exposing the same port binding and the same volume mount,
after performing stop, remove, pull, create, start in that order (the event
list of the five engine calls is a sublist of the emitted trace). -/
theorem update_to_version_preserves_config
    (st : Engine) (cname target : String) (c : ContainerRec)
    (hc : lookupC st cname = some c)
    (hnames : (st.containers.map (·.name)).Nodup)
    (hfresh : ∀ x ∈ st.containers, x.cid ≠ natToStr st.nextId)
    (hports : c.portBindings = [("5678/tcp", ["5678"])])
    (hmounts : c.mounts =
      [⟨some "volume", some "n8n_data", some "/home/node/.n8n", none, some "rw", none⟩])
    (hpull : ("n8nio/n8n:" ++ target) ∈ st.registryTags) :
    ∃ c', (update_to_version st cname target none).1 = .ok c'.cid ∧
      lookupC (update_to_version st cname target none).2.1 cname = some c' ∧
      c'.portBindings = [("5678/tcp", ["5678"])] ∧
      c'.mounts =
        [⟨some "volume", some "n8n_data", some "/home/node/.n8n", none, some "rw", none⟩] ∧
      c'.status = "running" ∧
      [UEv.stopEv, UEv.removeEv, UEv.pullEv ("n8nio/n8n:" ++ target),
        UEv.createEv cname, UEv.startEv].Sublist
        (update_to_version st cname target none).2.2 := by
  have hcap : captureFromC c = .ok ⟨some [(.pint 5678, 5678)],
      some [("n8n_data", ⟨"/home/node/.n8n", "rw"⟩)], c.networks.head?, parseEnv c.env⟩ := by
    unfold captureFromC capturePorts captureVols
    rw [hports, hmounts]
    rfl
  have hcore := update_core_found st cname target c _ hc hcap
  obtain ⟨st3, hp3, hcont3, hnext3, hnet3, hreg3⟩ :=
    pullImage_ok (removeById (stopById st c.cid) c.cid) ("n8nio/n8n:" ++ target) hpull
  have hfree3 : lookupC st3 cname = none := by
    have h0 := lookupC_after_remove st cname c hc hnames
    unfold lookupC at h0 ⊢
    rw [hcont3]
    exact h0
  obtain ⟨st4, newC, hcr, hcont4, hnext4, hnet4, hreg4, hcid, hname4, hpb4, hm4, hrp4,
    hstat4, hnets4⟩ :=
    createContainer_ok st3 cname ("n8nio/n8n:" ++ target)
      ⟨[(5678, 5678)], "unless-stopped", [("n8n_data", "/home/node/.n8n")]⟩
      ((parseEnv c.env).map (fun kv => kv.1 ++ "=" ++ kv.2)) [5678] ["/home/node/.n8n"]
      hfree3
  have hst2next : (removeById (stopById st c.cid) c.cid).nextId = st.nextId := rfl
  have hfind4 : findById st4 newC.cid = some newC := by
    unfold findById
    rw [hcont4]
    apply find?_append_last
    · intro x hx hpred
      rw [hcont3] at hx
      obtain ⟨y, hy, _, hcidxy, _⟩ := mem_after_remove hx
      simp only [decide_eq_true_eq] at hpred
      apply hfresh y hy
      rw [← hcidxy, hpred, hcid, hnext3, hst2next]
    · simp
  have hphase2 := update_phase2_unfold (removeById (stopById st c.cid) c.cid) cname target
    ⟨some [(.pint 5678, 5678)], some [("n8n_data", ⟨"/home/node/.n8n", "rw"⟩)],
     c.networks.head?, parseEnv c.env⟩ [UEv.stopEv, UEv.removeEv] st3 hp3
    ([(5678, 5678)], [5678]) rfl st4 newC.cid hcr newC hfind4
  have hfull : update_to_version st cname target none =
      (.ok newC.cid,
       startById (networkPhase st4 (c.networks.head?) newC.cid).1 newC.cid,
       [UEv.stopEv, UEv.removeEv] ++
         [UEv.pullEv ("n8nio/n8n:" ++ target), UEv.createEv cname] ++
         (networkPhase st4 (c.networks.head?) newC.cid).2 ++ [UEv.startEv]) := by
    unfold update_to_version
    rw [hcore, hphase2]
  -- the name lookup in the created-and-appended state
  have hlook4 : lookupC st4 cname = some newC := by
    obtain ⟨hmem, hname⟩ := lookupC_spec hc
    unfold lookupC
    rw [hcont4]
    apply find?_append_last
    · intro x hx hpred
      rw [hcont3] at hx
      obtain ⟨y, hy, hnamexy, hcidxy, hne⟩ := mem_after_remove hx
      simp only [decide_eq_true_eq] at hpred
      have hinj := List.inj_on_of_nodup_map hnames
      have hyc : y = c := hinj hy hmem (by rw [← hnamexy, hpred, hname])
      exact hne (by rw [hcidxy, hyc])
    · simp [hname4]
  -- final state lookup through networkPhase and start
  have hnameP1 : ∀ cc : ContainerRec,
      ({ cc with networks := cc.networks ++ [""] }).name = cc.name := fun _ => rfl
  have hsub : [UEv.stopEv, UEv.removeEv, UEv.pullEv ("n8nio/n8n:" ++ target),
      UEv.createEv cname, UEv.startEv].Sublist
      ([UEv.stopEv, UEv.removeEv] ++
        [UEv.pullEv ("n8nio/n8n:" ++ target), UEv.createEv cname] ++
        (networkPhase st4 (c.networks.head?) newC.cid).2 ++ [UEv.startEv]) :=
    List.Sublist.append
      (List.sublist_append_left
        ([UEv.stopEv, UEv.removeEv] ++
          [UEv.pullEv ("n8nio/n8n:" ++ target), UEv.createEv cname])
        (networkPhase st4 (c.networks.head?) newC.cid).2)
      (List.Sublist.refl [UEv.startEv])
  rcases networkPhase_cases st4 (c.networks.head?) newC.cid with hnp | ⟨n, hnp⟩
  · refine ⟨{ newC with status := "running" }, ?_, ?_, ?_, ?_, rfl, ?_⟩
    · rw [hfull]
    · rw [hfull]
      show lookupC (startById (networkPhase st4 (c.networks.head?) newC.cid).1 newC.cid)
        cname = _
      rw [hnp]
      unfold startById
      rw [lookupC_mapById st4 newC.cid (fun cc => { cc with status := "running" })
        (fun _ => rfl) cname, hlook4]
      simp
    · show newC.portBindings = _
      rw [hpb4]
      rfl
    · show newC.mounts = _
      rw [hm4]
      rfl
    · rw [hfull]
      exact hsub
  · refine ⟨{ { newC with networks := newC.networks ++ [n] } with status := "running" },
      ?_, ?_, ?_, ?_, rfl, ?_⟩
    · rw [hfull]
    · rw [hfull]
      show lookupC (startById (networkPhase st4 (c.networks.head?) newC.cid).1 newC.cid)
        cname = _
      rw [hnp]
      unfold startById connectById
      rw [lookupC_mapById
          (mapById st4 newC.cid (fun cc => { cc with networks := cc.networks ++ [n] }))
          newC.cid (fun cc => { cc with status := "running" }) (fun _ => rfl) cname,
        lookupC_mapById st4 newC.cid
          (fun cc => { cc with networks := cc.networks ++ [n] }) (fun _ => rfl) cname,
        hlook4]
      simp
    · show newC.portBindings = _
      rw [hpb4]
      rfl
    · show newC.mounts = _
      rw [hm4]
      rfl
    · rw [hfull]
      exact hsub

/-- C2: when the image pull step fails (the target tag does not exist
upstream), `update_to_version` surfaces the `ImageNotFoundError` (wrapped by
the outer handler, as all errors of this operation are) and the managed
container is left absent: the old container was stopped and removed, the
trace is exactly stop, remove, failed pull, and no create step happened. -/
theorem update_to_version_pull_failure
    (st : Engine) (cname target : String) (c : ContainerRec) (cap : Captured)
    (hc : lookupC st cname = some c)
    (hnames : (st.containers.map (·.name)).Nodup)
    (hcap : captureFromC c = .ok cap)
    (hpull : ("n8nio/n8n:" ++ target) ∉ st.registryTags) :
    (update_to_version st cname target none).1 =
      .error (.wrapped "Failed to update container"
        (.imageNotFound ("n8nio/n8n:" ++ target))) ∧
    lookupC (update_to_version st cname target none).2.1 cname = none ∧
    (update_to_version st cname target none).2.2 =
      [.stopEv, .removeEv, .pullEv ("n8nio/n8n:" ++ target)] ∧
    UEv.createEv cname ∉ (update_to_version st cname target none).2.2 := by
  have hpfail : pullImage (removeById (stopById st c.cid) c.cid)
      ("n8nio/n8n:" ++ target) = .error (.imageNotFound ("n8nio/n8n:" ++ target)) := by
    unfold pullImage
    rw [if_neg (show ¬ ("n8nio/n8n:" ++ target) ∈
      (removeById (stopById st c.cid) c.cid).registryTags from hpull)]
  have hcore : update_core st cname target none =
      (.error (.imageNotFound ("n8nio/n8n:" ++ target)),
       removeById (stopById st c.cid) c.cid,
       [.stopEv, .removeEv, .pullEv ("n8nio/n8n:" ++ target)]) := by
    simp only [update_core, update_phase2, hc, hcap, hpfail, cbOk, progEv]
    rfl
  have hwrap : update_to_version st cname target none =
      (.error (.wrapped "Failed to update container"
         (.imageNotFound ("n8nio/n8n:" ++ target))),
       removeById (stopById st c.cid) c.cid,
       [.stopEv, .removeEv, .pullEv ("n8nio/n8n:" ++ target)]) := by
    unfold update_to_version
    rw [hcore]
  rw [hwrap]
  refine ⟨rfl, ?_, rfl, ?_⟩
  · exact lookupC_after_remove st cname c hc hnames
  · simp

/-- A concrete engine running `n8nio/n8n:1.0.0` whose registry serves only
the tag `n8nio/n8n:1.1.0`. -/
def engUp : Engine :=
  { containers := [mkContainer "n8n" "n8nio/n8n:1.0.0"], localImages := [],
    registryTags := ["n8nio/n8n:1.1.0"], networks := [], nextId := 7 }

/-- C1 witness: the theorem applied to a concrete engine. -/
theorem update_to_version_preserves_config_witness :
    ∃ c', (update_to_version engUp "n8n" "1.1.0" none).1 = .ok c'.cid ∧
      lookupC (update_to_version engUp "n8n" "1.1.0" none).2.1 "n8n" = some c' ∧
      c'.portBindings = [("5678/tcp", ["5678"])] ∧
      c'.mounts =
        [⟨some "volume", some "n8n_data", some "/home/node/.n8n", none, some "rw", none⟩] ∧
      c'.status = "running" ∧
      [UEv.stopEv, UEv.removeEv, UEv.pullEv ("n8nio/n8n:" ++ "1.1.0"),
        UEv.createEv "n8n", UEv.startEv].Sublist
        (update_to_version engUp "n8n" "1.1.0" none).2.2 :=
  update_to_version_preserves_config engUp "n8n" "1.1.0"
    (mkContainer "n8n" "n8nio/n8n:1.0.0")
    (by decide) (by decide) (by decide) (by decide) (by decide) (by decide)

/-- C2 witness: the theorem applied to a concrete engine with a missing tag. -/
theorem update_to_version_pull_failure_witness :
    (update_to_version engUp "n8n" "9.9.9" none).1 =
      .error (.wrapped "Failed to update container"
        (.imageNotFound ("n8nio/n8n:" ++ "9.9.9"))) ∧
    lookupC (update_to_version engUp "n8n" "9.9.9" none).2.1 "n8n" = none ∧
    (update_to_version engUp "n8n" "9.9.9" none).2.2 =
      [.stopEv, .removeEv, .pullEv ("n8nio/n8n:" ++ "9.9.9")] ∧
    UEv.createEv "n8n" ∉ (update_to_version engUp "n8n" "9.9.9" none).2.2 :=
  update_to_version_pull_failure engUp "n8n" "9.9.9"
    (mkContainer "n8n" "n8nio/n8n:1.0.0") defaultCaptured
    (by decide) (by decide) rfl (by decide)

/-- A non-raising callback leaves the result and final engine state of
`update_phase2` identical to a run with no callback (traces differ only in
progress events). -/
theorem update_phase2_cb (st : Engine) (cname target : String) (cb : String → Bool)
    (cap : Captured) (tr tr' : List UEv) (hcb : ∀ m, cb m = true) :
    (update_phase2 st cname target (some cb) cap tr).1 =
      (update_phase2 st cname target none cap tr').1 ∧
    (update_phase2 st cname target (some cb) cap tr).2.1 =
      (update_phase2 st cname target none cap tr').2.1 := by
  simp only [update_phase2, cbOk, progEv, hcb, not_true, eq_self_iff_true, if_false]
  constructor <;> (repeat' split) <;> rfl

/-- Callback transparency for the whole `try` body. -/
theorem update_core_cb (st : Engine) (cname target : String) (cb : String → Bool)
    (hcb : ∀ m, cb m = true) :
    (update_core st cname target (some cb)).1 = (update_core st cname target none).1 ∧
    (update_core st cname target (some cb)).2.1 =
      (update_core st cname target none).2.1 := by
  simp only [update_core, cbOk, progEv, hcb, not_true, eq_self_iff_true, if_false]
  cases hl : lookupC st cname with
  | none =>
    dsimp only
    exact update_phase2_cb st cname target cb defaultCaptured _ _ hcb
  | some c =>
    dsimp only
    cases hcap : captureFromC c with
    | error e => exact ⟨rfl, rfl⟩
    | ok cap =>
      dsimp only
      exact update_phase2_cb _ cname target cb cap _ _ hcb

/-- C8 (amended): for every progress callback that returns normally on all
milestones, the outcome of `update_to_version` (result and final engine
state) is the same as with no callback supplied; a callback that raises,
however, aborts the operation (see the counterexample). -/
theorem update_to_version_callback_transparent (st : Engine) (cname target : String)
    (cb : String → Bool) (hcb : ∀ m, cb m = true) :
    (update_to_version st cname target (some cb)).1 =
      (update_to_version st cname target none).1 ∧
    (update_to_version st cname target (some cb)).2.1 =
      (update_to_version st cname target none).2.1 := by
  have hc := update_core_cb st cname target cb hcb
  unfold update_to_version
  rcases h1 : update_core st cname target (some cb) with ⟨r1, s1, t1⟩
  rcases h2 : update_core st cname target none with ⟨r2, s2, t2⟩
  rw [h1, h2] at hc
  obtain ⟨hr, hs⟩ := hc
  simp only at hr hs
  subst hr
  subst hs
  cases r1 with
  | error e => exact ⟨rfl, rfl⟩
  | ok a => exact ⟨rfl, rfl⟩

/-- C8 witness: the amended theorem applied at a concrete engine and the
always-true callback. -/
theorem update_to_version_callback_transparent_witness :
    (update_to_version engUp "n8n" "1.1.0" (some (fun _ => true))).1 =
      (update_to_version engUp "n8n" "1.1.0" none).1 ∧
    (update_to_version engUp "n8n" "1.1.0" (some (fun _ => true))).2.1 =
      (update_to_version engUp "n8n" "1.1.0" none).2.1 :=
  update_to_version_callback_transparent engUp "n8n" "1.1.0" (fun _ => true)
    (fun _ => rfl)

/-- C8 counterexample: a progress callback that raises on invocation aborts
the upgrade (the call sits inside the `try` block with no protection), so the
outcome differs from the run with no callback. -/
theorem update_to_version_callback_raise_cex :
    (update_to_version engUp "n8n" "1.1.0" (some (fun _ => false))).1 =
      .error (.wrapped "Failed to update container" (.callbackErr msgGetting)) ∧
    (update_to_version engUp "n8n" "1.1.0" none).1 = .ok "7" ∧
    (update_to_version engUp "n8n" "1.1.0" (some (fun _ => false))).1 ≠
      (update_to_version engUp "n8n" "1.1.0" none).1 := by
  refine ⟨rfl, by decide, ?_⟩
  rw [show (update_to_version engUp "n8n" "1.1.0" (some (fun _ => false))).1 =
      .error (.wrapped "Failed to update container" (.callbackErr msgGetting)) from rfl]
  rw [show (update_to_version engUp "n8n" "1.1.0" none).1 = .ok "7" from by decide]
  decide

/-- A successful pull leaves containers and the id counter unchanged. -/
theorem pullImage_preserves {st st1 : Engine} {tag : String}
    (h : pullImage st tag = .ok st1) :
    st1.containers = st.containers ∧ st1.nextId = st.nextId := by
  unfold pullImage at h
  split at h
  · split at h
    · cases h
      exact ⟨rfl, rfl⟩
    · cases h
      exact ⟨rfl, rfl⟩
  · cases h

theorem update_phase2_ok_policy (st : Engine) (cname target : String)
    (cb : Option (String → Bool)) (cap : Captured) (tr : List UEv) (cid : String)
    (hfresh : ∀ x ∈ st.containers, x.cid ≠ natToStr st.nextId)
    (hok : (update_phase2 st cname target cb cap tr).1 = .ok cid) :
    ∃ c', findById (update_phase2 st cname target cb cap tr).2.1 cid = some c' ∧
      c'.restartPolicy = "unless-stopped" := by
  rcases hres : update_phase2 st cname target cb cap tr with ⟨res, st', tr'⟩
  rw [hres] at hok
  simp only at hok
  subst hok
  dsimp only
  simp only [update_phase2] at hres
  by_cases h1 : cbOk cb (msgPulling target) = true
  case neg =>
    rw [if_pos h1] at hres
    simp at hres
  rw [if_neg (by simpa using h1)] at hres
  cases hpull : pullImage st ("n8nio/n8n:" ++ target) with
  | error e =>
    rw [hpull] at hres
    simp at hres
  | ok st1 =>
    rw [hpull] at hres
    dsimp only at hres
    obtain ⟨hcont1, hnext1⟩ := pullImage_preserves hpull
    by_cases h2 : cbOk cb msgCreating = true
    case neg =>
      rw [if_pos h2] at hres
      simp at hres
    rw [if_neg (by simpa using h2)] at hres
    cases hport : rebuildPorts cap.ports_config with
    | error e =>
      rw [hport] at hres
      simp at hres
    | ok pl =>
      rw [hport] at hres
      dsimp only at hres
      by_cases hfree : lookupC st1 cname = none
      case neg =>
        rw [show createContainer st1 cname ("n8nio/n8n:" ++ target)
            ⟨pl.1, "unless-stopped",
             (if pyTL cap.volumes_config = true then cap.volumes_config.getD []
              else [("n8n_data", ⟨"/home/node/.n8n", "rw"⟩)]).map (fun v => (v.1, v.2.bind))⟩
            (cap.env_dict.map (fun kv => kv.1 ++ "=" ++ kv.2)) pl.2
            ((if pyTL cap.volumes_config = true then cap.volumes_config.getD []
              else [("n8n_data", ⟨"/home/node/.n8n", "rw"⟩)]).map (fun v => v.2.bind)) =
            .error (.apiConflict cname) from by
          unfold createContainer
          rw [if_pos (by
            cases hl : lookupC st1 cname
            · exact absurd hl hfree
            · simp [Option.isSome])]] at hres
        simp at hres
      obtain ⟨stc, cdef, hcr, hcont4, hnext4, hnet4, hreg4, hcid4, hname4, hpb4, hm4,
        hrp4, hstat4, hnets4⟩ :=
        createContainer_ok st1 cname ("n8nio/n8n:" ++ target)
          ⟨pl.1, "unless-stopped",
           (if pyTL cap.volumes_config = true then cap.volumes_config.getD []
            else [("n8n_data", ⟨"/home/node/.n8n", "rw"⟩)]).map (fun v => (v.1, v.2.bind))⟩
          (cap.env_dict.map (fun kv => kv.1 ++ "=" ++ kv.2)) pl.2
          ((if pyTL cap.volumes_config = true then cap.volumes_config.getD []
            else [("n8n_data", ⟨"/home/node/.n8n", "rw"⟩)]).map (fun v => v.2.bind)) hfree
      rw [hcr] at hres
      dsimp only at hres
      have hfindc : findById stc cdef.cid = some cdef := by
        unfold findById
        rw [hcont4]
        apply find?_append_last
        · intro x hx hpred
          rw [hcont1] at hx
          simp only [decide_eq_true_eq] at hpred
          exact hfresh x hx (by rw [hpred, hcid4, hnext1])
        · simp
      rw [hfindc] at hres
      dsimp only at hres
      by_cases h3 : cbOk cb msgStarting = true
      case neg =>
        rw [if_pos h3] at hres
        simp at hres
      rw [if_neg (by simpa using h3)] at hres
      by_cases h4 : cbOk cb msgComplete = true
      case neg =>
        rw [if_pos h4] at hres
        simp at hres
      rw [if_neg (by simpa using h4)] at hres
      have hcid : cdef.cid = cid := by
        have := congrArg (fun p => p.1) hres
        simpa using this
      have hst' : st' =
          startById (networkPhase stc cap.network_config cdef.cid).1 cdef.cid := by
        have := congrArg (fun p => p.2.1) hres
        simpa using this.symm
      subst hcid
      rw [hst']
      rcases networkPhase_cases stc cap.network_config cdef.cid with hnp | ⟨n, hnp⟩
      · refine ⟨{ cdef with status := "running" }, ?_, ?_⟩
        · rw [hnp]
          unfold startById
          rw [findById_mapById stc cdef.cid (fun cc => { cc with status := "running" })
            (fun _ => rfl) cdef.cid, hfindc]
          simp
        · show cdef.restartPolicy = _
          rw [hrp4]
      · refine ⟨{ { cdef with networks := cdef.networks ++ [n] } with status := "running" },
          ?_, ?_⟩
        · rw [hnp]
          unfold startById connectById
          rw [findById_mapById
              (mapById stc cdef.cid (fun cc => { cc with networks := cc.networks ++ [n] }))
              cdef.cid (fun cc => { cc with status := "running" }) (fun _ => rfl) cdef.cid,
            findById_mapById stc cdef.cid
              (fun cc => { cc with networks := cc.networks ++ [n] }) (fun _ => rfl) cdef.cid,
            hfindc]
          simp
        · show cdef.restartPolicy = _
          rw [hrp4]

theorem update_core_ok_policy (st : Engine) (cname target : String)
    (cb : Option (String → Bool)) (cid : String)
    (hfresh : ∀ x ∈ st.containers, x.cid ≠ natToStr st.nextId)
    (hok : (update_core st cname target cb).1 = .ok cid) :
    ∃ c', findById (update_core st cname target cb).2.1 cid = some c' ∧
      c'.restartPolicy = "unless-stopped" := by
  rcases hres : update_core st cname target cb with ⟨res, st', tr'⟩
  rw [hres] at hok
  simp only at hok
  subst hok
  dsimp only
  simp only [update_core] at hres
  by_cases h0 : cbOk cb msgGetting = true
  case neg =>
    rw [if_pos h0] at hres
    simp at hres
  rw [if_neg (by simpa using h0)] at hres
  cases hl : lookupC st cname with
  | none =>
    rw [hl] at hres
    dsimp only at hres
    by_cases h1 : cbOk cb msgNotFoundCreate = true
    case neg =>
      rw [if_pos h1] at hres
      simp at hres
    rw [if_neg (by simpa using h1)] at hres
    have h2 := update_phase2_ok_policy st cname target cb defaultCaptured
      (progEv cb msgGetting ++ progEv cb msgNotFoundCreate) cid hfresh (by rw [hres])
    rw [hres] at h2
    exact h2
  | some c =>
    rw [hl] at hres
    dsimp only at hres
    cases hcap : captureFromC c with
    | error e =>
      rw [hcap] at hres
      simp at hres
    | ok cap =>
      rw [hcap] at hres
      dsimp only at hres
      by_cases h1 : cbOk cb msgStopping = true
      case neg =>
        rw [if_pos h1] at hres
        simp at hres
      rw [if_neg (by simpa using h1)] at hres
      by_cases h2 : cbOk cb msgRemoving = true
      case neg =>
        rw [if_pos h2] at hres
        simp at hres
      rw [if_neg (by simpa using h2)] at hres
      have hfresh2 : ∀ x ∈ (removeById (stopById st c.cid) c.cid).containers,
          x.cid ≠ natToStr (removeById (stopById st c.cid) c.cid).nextId := by
        intro x hx
        obtain ⟨y, hy, _, hcidxy, _⟩ := mem_after_remove hx
        rw [hcidxy]
        exact hfresh y hy
      have h3 := update_phase2_ok_policy (removeById (stopById st c.cid) c.cid) cname
        target cb cap (progEv cb msgGetting ++ progEv cb msgStopping ++ [UEv.stopEv] ++
          progEv cb msgRemoving ++ [UEv.removeEv]) cid hfresh2 (by rw [hres])
      rw [hres] at h3
      exact h3

/-- C10: every container created by a successful `update_to_version` carries
restart policy `unless-stopped`: the host config is built with that literal
policy and the old container's restart policy (universally quantified here)
is never read by the capture step. -/
theorem update_to_version_restart_policy (st : Engine) (cname target : String)
    (cb : Option (String → Bool)) (cid : String)
    (hfresh : ∀ x ∈ st.containers, x.cid ≠ natToStr st.nextId)
    (hok : (update_to_version st cname target cb).1 = .ok cid) :
    ∃ c', findById (update_to_version st cname target cb).2.1 cid = some c' ∧
      c'.restartPolicy = "unless-stopped" := by
  have hcp : (update_core st cname target cb).1 = .ok cid := by
    rcases hres : update_core st cname target cb with ⟨res, st2, tr2⟩
    unfold update_to_version at hok
    rw [hres] at hok
    cases res with
    | error e => simp at hok
    | ok a => simpa using hok
  obtain ⟨c', hfind, hpol⟩ := update_core_ok_policy st cname target cb cid hfresh hcp
  refine ⟨c', ?_, hpol⟩
  unfold update_to_version
  rcases hres : update_core st cname target cb with ⟨res, st2, tr2⟩
  rw [hres] at hfind hcp
  cases res with
  | error e => simp at hcp
  | ok a => simpa using hfind

/-- C10 witness: the theorem applied at a concrete engine. -/
theorem update_to_version_restart_policy_witness :
    ∃ c', findById (update_to_version engUp "n8n" "1.1.0" none).2.1 "7" = some c' ∧
      c'.restartPolicy = "unless-stopped" :=
  update_to_version_restart_policy engUp "n8n" "1.1.0" none "7" (by decide) (by decide)

/-! ## Local image inventory and rollback (`get_local_images`, `rollback_to_previous`) -/

/-- One entry of the local image inventory (`{version, created}`). -/
structure LocalImage where
  version : String
  created : String
deriving DecidableEq, Repr

/-- The entry contributed by one local image: the first tag containing the
image name that splits as `repo:version` (tags failing the split do not break
the loop), with the floating `latest` resolved through labels and repo tags
as in the status query. -/
def imageEntry (im : ImageRec) : Option LocalImage :=
  im.tags.findSome? (fun tag =>
    if strHasSub tag "n8nio/n8n" then
      match splitOnC ':' tag.data with
      | [_, v] =>
        let version : String := ⟨v⟩
        let version :=
          if version = "latest" then
            match resolveLatest im.labels im.repoTags with
            | some v' => v'
            | none => version
          else version
        some ⟨version, im.created⟩
      | _ => none
    else none)

/-- Sort relation of `result.sort(key=created, reverse=True)`: newest
creation-time string first (Python string comparison). -/
def imgGe (a b : LocalImage) : Prop := strCmpL a.created.data b.created.data ≠ .lt

instance : DecidableRel imgGe := fun a b => by
  unfold imgGe
  infer_instance

instance : IsTotal LocalImage imgGe :=
  ⟨fun a b =>
    (strCmpL_lawful.comap (fun i : LocalImage => i.created.data)).ge_total a b⟩

instance : IsTrans LocalImage imgGe :=
  ⟨fun _ _ _ hab hbc =>
    (strCmpL_lawful.comap (fun i : LocalImage => i.created.data)).ge_trans hab hbc⟩

/-- `N8NManager.get_local_images`: one entry per image with a matching tag,
sorted by creation time descending (stable). -/
def get_local_images (st : Engine) : List LocalImage :=
  List.insertionSort imgGe (st.localImages.filterMap imageEntry)

/-- Python `image["version"] != current_version` (a string never equals
`None`). -/
def vDiff (v : String) (cv : Option String) : Bool :=
  match cv with
  | none => true
  | some c => decide (v ≠ c)

/-- The rollback target the code computes: `images[1]` when its version
differs from the current one, otherwise the first image in the whole list
whose version differs. -/
def rollback_pick (images : List LocalImage) (cv : Option String) : Option String :=
  match images with
  | _ :: i1 :: _ =>
    if vDiff i1.version cv then some i1.version
    else (images.find? (fun i => vDiff i.version cv)).map (·.version)
  | _ => (images.find? (fun i => vDiff i.version cv)).map (·.version)

/-- Python `f"{x}"` on an optional string (`None` prints as `None`). -/
def showOptS : Option String → String
  | none => "None"
  | some s => s

/-- Python `rollback_version == current_version` (string vs optional). -/
def rvEqCv (rv : String) (cv : Option String) : Bool :=
  match cv with
  | none => false
  | some c => decide (rv = c)

/-- `N8NManager.rollback_to_previous`: requires two local images, picks the
rollback version as `rollback_pick` does, rejects a falsy or identical pick,
and delegates to `update_to_version`; every failure is wrapped as
`Failed to rollback: <e>`. -/
def rollback_to_previous (st : Engine) (cname : String) :
    Except DErr String × Engine × List UEv :=
  let cv := (get_container_status st cname).current_version
  let images := get_local_images st
  if images.length < 2 then
    (.error (.wrapped "Failed to rollback" (.pyExc "No previous version found locally")),
     st, [])
  else
    match rollback_pick images cv with
    | none =>
      (.error (.wrapped "Failed to rollback"
        (.pyExc ("Already running version " ++ showOptS cv ++
          ". Cannot rollback to the same version."))), st, [])
    | some rv =>
      if rv.data.isEmpty then
        (.error (.wrapped "Failed to rollback"
          (.pyExc ("Already running version " ++ showOptS cv ++
            ". Cannot rollback to the same version."))), st, [])
      else if rvEqCv rv cv then
        (.error (.wrapped "Failed to rollback"
          (.pyExc ("Already running version " ++ rv ++
            ". Cannot rollback to the same version."))), st, [])
      else
        match update_to_version st cname rv none with
        | (.error e, st', tr) => (.error (.wrapped "Failed to rollback" e), st', tr)
        | r => r

/-- Modelled from the claim's words (for comparison with the code's
`rollback_pick`, not taken from the source): the first local image strictly
after the current one, in the inventory's creation-time order, whose version
differs from the current version. -/
def spec_rollback_pick (images : List LocalImage) (cv : Option String) :
    Option String :=
  (((images.dropWhile (fun i => vDiff i.version cv)).drop 1).find?
    (fun i => vDiff i.version cv)).map (·.version)

/-- Three creation-ordered local images `3.0.0` (newest), `2.0.0`, `1.0.0`,
with the managed container running `2.0.0` and `3.0.0` pullable. -/
def engRb : Engine :=
  { containers := [mkContainer "n8n" "n8nio/n8n:2.0.0"],
    localImages :=
      [{ tags := ["n8nio/n8n:3.0.0"], created := "2024-03-01T00:00:00Z",
         labels := [], repoTags := ["n8nio/n8n:3.0.0"] },
       { tags := ["n8nio/n8n:2.0.0"], created := "2024-02-01T00:00:00Z",
         labels := [], repoTags := ["n8nio/n8n:2.0.0"] },
       { tags := ["n8nio/n8n:1.0.0"], created := "2024-01-01T00:00:00Z",
         labels := [], repoTags := ["n8nio/n8n:1.0.0"] }],
    registryTags := ["n8nio/n8n:3.0.0"], networks := [], nextId := 9 }

/-- C3 counterexample: with the creation-ordered inventory
`[3.0.0 (newest), 2.0.0 (current), 1.0.0]`, the code picks `3.0.0` — when
`images[1]` matches the current version the fallback scan restarts at index 0,
so it can select an image created after (not after in creation-time order
than) the current one — whereas the claimed rule, the first image after the
current one whose version differs, picks `1.0.0`; `rollback_to_previous`
indeed delegates `3.0.0` to `update_to_version`. -/
theorem rollback_selects_before_current_cex :
    get_local_images engRb =
      [⟨"3.0.0", "2024-03-01T00:00:00Z"⟩, ⟨"2.0.0", "2024-02-01T00:00:00Z"⟩,
       ⟨"1.0.0", "2024-01-01T00:00:00Z"⟩] ∧
    (get_container_status engRb "n8n").current_version = some "2.0.0" ∧
    rollback_pick (get_local_images engRb) (some "2.0.0") = some "3.0.0" ∧
    spec_rollback_pick (get_local_images engRb) (some "2.0.0") = some "1.0.0" ∧
    rollback_to_previous engRb "n8n" = update_to_version engRb "n8n" "3.0.0" none := by
  decide

/-- C3 (amended): with fewer than two local images, rollback fails with the
insufficient-history error; with at least two, the selected version is
`images[1]` when its version differs from the current one, and otherwise the
first image of the whole creation-ordered inventory whose version differs
(which may precede the current image); when every version matches (or the
pick is falsy) it fails with the same-version error; a non-empty pick
distinct from the current version is delegated to `update_to_version`, whose
failures are wrapped as `Failed to rollback`. -/
theorem rollback_to_previous_spec (st : Engine) (cname : String) :
    ((get_local_images st).length < 2 →
      rollback_to_previous st cname =
        (.error (.wrapped "Failed to rollback" (.pyExc "No previous version found locally")),
         st, [])) ∧
    (∀ i0 i1 rest, get_local_images st = i0 :: i1 :: rest →
      (vDiff i1.version ((get_container_status st cname).current_version) = true →
        rollback_pick (get_local_images st)
          ((get_container_status st cname).current_version) = some i1.version) ∧
      (vDiff i1.version ((get_container_status st cname).current_version) = false →
        rollback_pick (get_local_images st)
          ((get_container_status st cname).current_version) =
        ((get_local_images st).find? (fun i =>
          vDiff i.version ((get_container_status st cname).current_version))).map
          (fun i => i.version))) ∧
    (¬ (get_local_images st).length < 2 →
      rollback_pick (get_local_images st)
          ((get_container_status st cname).current_version) = none →
      rollback_to_previous st cname =
        (.error (.wrapped "Failed to rollback"
          (.pyExc ("Already running version " ++
            showOptS ((get_container_status st cname).current_version) ++
            ". Cannot rollback to the same version."))), st, [])) ∧
    (∀ v, ¬ (get_local_images st).length < 2 →
      rollback_pick (get_local_images st)
        ((get_container_status st cname).current_version) = some v →
      v.data.isEmpty = false →
      rvEqCv v ((get_container_status st cname).current_version) = false →
      rollback_to_previous st cname =
        (match update_to_version st cname v none with
         | (.error e, st', tr) => (.error (.wrapped "Failed to rollback" e), st', tr)
         | r => r)) := by
  refine ⟨?_, ?_, ?_, ?_⟩
  · intro hlen
    simp only [rollback_to_previous]
    rw [if_pos hlen]
  · intro i0 i1 rest h
    constructor
    · intro hd
      rw [h]
      simp only [rollback_pick]
      rw [hd]
      simp
    · intro hd
      rw [h]
      simp only [rollback_pick]
      rw [hd]
      simp [← h]
  · intro hlen hnone
    simp only [rollback_to_previous]
    rw [if_neg hlen, hnone]
  · intro v hlen hpick hv heq
    simp only [rollback_to_previous]
    rw [if_neg hlen, hpick]
    simp only [hv, heq, Bool.false_eq_true, if_false]

/-- C3 witness: the amended theorem applied to the concrete engine, where the
pick is `3.0.0`. -/
theorem rollback_to_previous_spec_witness :
    rollback_to_previous engRb "n8n" =
      (match update_to_version engRb "n8n" "3.0.0" none with
       | (.error e, st', tr) => (.error (.wrapped "Failed to rollback" e), st', tr)
       | r => r) :=
  (rollback_to_previous_spec engRb "n8n").2.2.2 "3.0.0" (by decide) (by decide)
    (by decide) (by decide)
